import Mathlib

/-!
Verification development for the game-matching / name-resolution engine of an
American-football prediction aggregator.

The engine lives in `src/matchers/matcher_ncaaf.py` (class `GameMatcher`,
institutional / university names) and `src/matchers/matcher_nfl.py`
(class `NFLGameMatcher`, mascot names).  Python strings are modelled as
`List Char` (the inputs are ASCII team names; Python `str.lower` and
`str.strip` are modelled on the ASCII/common-whitespace fragment).  The
external similarity library (`fuzzywuzzy`) is kept abstract: both
`fuzz.ratio` and `fuzz.token_set_ratio` enter the definitions as function
parameters returning naturals, exactly as the matchers consume them.
-/

set_option maxRecDepth 8192

/-- Python strings, modelled as lists of characters. -/
abbrev Str := List Char

/-- The whitespace characters recognised by Python's `str.strip` / `str.split`
(ASCII fragment). -/
def isWs (c : Char) : Bool :=
  c = ' ' || c = '\t' || c = '\n' || c = '\r' || c = '\x0b' || c = '\x0c'

/-- ASCII lower-casing of one character, as done by Python's `str.lower` on
the ASCII fragment. -/
def lowerChar (c : Char) : Char :=
  if c = 'A' then 'a' else if c = 'B' then 'b' else if c = 'C' then 'c'
  else if c = 'D' then 'd' else if c = 'E' then 'e' else if c = 'F' then 'f'
  else if c = 'G' then 'g' else if c = 'H' then 'h' else if c = 'I' then 'i'
  else if c = 'J' then 'j' else if c = 'K' then 'k' else if c = 'L' then 'l'
  else if c = 'M' then 'm' else if c = 'N' then 'n' else if c = 'O' then 'o'
  else if c = 'P' then 'p' else if c = 'Q' then 'q' else if c = 'R' then 'r'
  else if c = 'S' then 's' else if c = 'T' then 't' else if c = 'U' then 'u'
  else if c = 'V' then 'v' else if c = 'W' then 'w' else if c = 'X' then 'x'
  else if c = 'Y' then 'y' else if c = 'Z' then 'z' else c

/-- Python `s.lower()`. -/
def pyLower (s : Str) : Str := s.map lowerChar

/-- Remove leading whitespace (half of Python `s.strip()`). -/
def lstrip (s : Str) : Str := s.dropWhile isWs

/-- Remove trailing whitespace (half of Python `s.strip()`). -/
def rstrip (s : Str) : Str := (s.reverse.dropWhile isWs).reverse

/-- Python `s.strip()`. -/
def pyStrip (s : Str) : Str := rstrip (lstrip s)

/-- Worker for `splitWs`: `cur` is the (reversed) whitespace-free run read so
far. -/
def splitWsAux (cur : Str) : Str → List Str
  | [] => if cur = [] then [] else [cur.reverse]
  | c :: cs =>
    if isWs c then
      if cur = [] then splitWsAux [] cs else cur.reverse :: splitWsAux [] cs
    else splitWsAux (c :: cur) cs

/-- Python `s.split()`: the maximal whitespace-free runs of `s`, in order. -/
def splitWs (s : Str) : List Str := splitWsAux [] s

/-- Index of the first occurrence of `pat` as a contiguous substring of `s`
(Python `s.find(pat)` restricted to found/not-found). -/
def substrPos (pat : Str) : Str → Option Nat
  | [] => if pat.isPrefixOf ([] : Str) then some 0 else none
  | c :: cs =>
    if pat.isPrefixOf (c :: cs) then some 0
    else (substrPos pat cs).map (· + 1)

/-- Python `pat in s` (contiguous substring test). -/
def containsSub (pat s : Str) : Bool := (substrPos pat s).isSome

/-- Worker for `replaceSub`; `fuel` only forces structural recursion and is
chosen large enough (the string's length) never to run out for a nonempty
pattern. -/
def replaceSubAux (pat rep : Str) : Nat → Str → Str
  | _, [] => []
  | 0, s => s
  | fuel + 1, c :: cs =>
    if pat.isPrefixOf (c :: cs) then
      rep ++ replaceSubAux pat rep fuel ((c :: cs).drop pat.length)
    else c :: replaceSubAux pat rep fuel cs

/-- Python `s.replace(pat, rep)` for a nonempty `pat`: replace all
non-overlapping occurrences, scanning left to right. -/
def replaceSub (pat rep : Str) (s : Str) : Str := replaceSubAux pat rep s.length s

/-- Lookup in an association list, first match wins (Python `d[k]` /
`k in d`). -/
def dictGet {β : Type} (k : String) : List (String × β) → Option β
  | [] => none
  | (k', v) :: rest => if k' = k then some v else dictGet k rest

/-- Python `d[k] = v` on an insertion-ordered dict: overwrite in place if the
key exists, else append. -/
def dictInsert {β : Type} (k : String) (v : β) : List (String × β) → List (String × β)
  | [] => [(k, v)]
  | (k', v') :: rest =>
    if k' = k then (k, v) :: rest else (k', v') :: dictInsert k v rest

namespace GameMatcher

/-- `GameMatcher.CAMPUS_KEYWORDS` from `matcher_ncaaf.py`. -/
def CAMPUS_KEYWORDS : List Str :=
  ["Berkeley".data, "Los Angeles".data, "Santa Barbara".data, "Santa Cruz".data,
   "Riverside".data, "Davis".data, "Irvine".data, "Merced".data,
   "Boulder".data, "Colorado Springs".data,
   "Austin".data, "Arlington".data, "Dallas".data, "El Paso".data, "San Antonio".data,
   "Chapel Hill".data, "Charlotte".data, "Greensboro".data, "Wilmington".data,
   "Asheville".data,
   "Amherst".data, "Lowell".data, "Boston".data, "Dartmouth".data,
   "Las Vegas".data, "Reno".data,
   "Manoa".data, "Hilo".data,
   "Lafayette".data, "Monroe".data, "Shreveport".data,
   "Birmingham".data, "Huntsville".data,
   "Park".data, "College Station".data,
   "Storrs".data, "Kennesaw".data, "Lubbock".data]

/-- `GameMatcher.normalize_team_name` (institutional policy): rewrite
`"University at "` to `"University of "`, cut at the first comma, cut before
the first `" at "`, remove campus keywords (as a trailing suffix, or else all
interior ` kw ` spans), and trim. -/
def normalize_team_name (team_name : Str) : Str :=
  if team_name = [] then team_name
  else
    let name := pyStrip team_name
    let name :=
      if "university at ".data.isPrefixOf (pyLower name) then
        "University of ".data ++ name.drop 14
      else name
    let name := if ',' ∈ name then name.takeWhile (fun c => c ≠ ',') else name
    let name :=
      match substrPos " at ".data (pyLower name) with
      | some at_pos => name.take at_pos
      | none => name
    let name := CAMPUS_KEYWORDS.foldl
      (fun n keyword =>
        if (' ' :: keyword).isSuffixOf n then
          n.take (n.length - (keyword.length + 1))
        else if containsSub (' ' :: keyword ++ [' ']) n then
          replaceSub (' ' :: keyword ++ [' ']) [' '] n
        else n)
      name
    pyStrip name

end GameMatcher

namespace NFLGameMatcher

/-- The `nfl_teams` mascot vocabulary from `NFLGameMatcher.normalize_team_name`. -/
def nfl_teams : List Str :=
  ["Raiders".data, "Ravens".data, "Bills".data, "Bengals".data, "Browns".data,
   "Broncos".data, "Texans".data,
   "Colts".data, "Jaguars".data, "Chiefs".data, "Chargers".data, "Dolphins".data,
   "Patriots".data, "Jets".data,
   "Steelers".data, "Titans".data, "Cowboys".data, "Giants".data, "Eagles".data,
   "Commanders".data,
   "Bears".data, "Lions".data, "Packers".data, "Vikings".data, "Falcons".data,
   "Panthers".data, "Saints".data,
   "Buccaneers".data, "Cardinals".data, "Rams".data, "49ers".data, "Seahawks".data]

/-- `NFLGameMatcher.normalize_team_name` (mascot policy): trim; if the name
has several whitespace-separated words and the last one is (case-insensitively)
a known mascot, collapse to that word; lower-case and trim the result. -/
def normalize_team_name (team_name : Str) : Str :=
  if team_name = [] then team_name
  else
    let name := pyStrip team_name
    let name :=
      if ' ' ∈ name then
        let parts := splitWs name
        if 1 < parts.length then
          let last_word := parts.getLastD []
          if nfl_teams.any (fun team => pyLower team = pyLower last_word) then
            last_word
          else name
        else name
      else name
    pyStrip (pyLower name)

end NFLGameMatcher

/-- One source game record (a JSON object from a source's `games` list).
Score and spread payload fields are optional, mirroring the `... in game`
key-presence checks of the matchers; team-name fields are required (records
without them are `Candidate.malformed`). -/
structure SourceGame where
  away_team : Str
  home_team : Str
  predicted_score_away : Option ℚ := none
  predicted_score_home : Option ℚ := none
  spread_away : Option ℚ := none
  spread_home : Option ℚ := none
deriving DecidableEq, Repr

/-- An entry of a source's `games` list: either a well-shaped record or a
malformed one (not a dict, or missing `away_team`/`home_team`), which both
matchers skip. -/
inductive Candidate where
  | malformed : Candidate
  | game : SourceGame → Candidate
deriving DecidableEq, Repr

/-- The `reversed_game` construction of `NFLGameMatcher.find_matching_game`:
swap the team names, swap the predicted scores when both are present, and
swap the spreads when both are present. -/
def reverseGame (g : SourceGame) : SourceGame :=
  let g1 := { g with away_team := g.home_team, home_team := g.away_team }
  let g2 :=
    if g1.predicted_score_away.isSome ∧ g1.predicted_score_home.isSome then
      { g1 with predicted_score_away := g1.predicted_score_home,
                predicted_score_home := g1.predicted_score_away }
    else g1
  if g2.spread_away.isSome ∧ g2.spread_home.isSome then
    { g2 with spread_away := g2.spread_home, spread_home := g2.spread_away }
  else g2

namespace GameMatcher

/-- The exact pass of `GameMatcher.find_matching_game`: first candidate whose
normalized names equal the normalized canonical pair (no swap detection in the
institutional domain). -/
def exactScan (normalized_away normalized_home : Str) :
    List Candidate → Option SourceGame
  | [] => none
  | .malformed :: rest => exactScan normalized_away normalized_home rest
  | .game g :: rest =>
    let game_away := normalize_team_name g.away_team
    let game_home := normalize_team_name g.home_team
    if normalized_away = game_away ∧ normalized_home = game_home then some g
    else exactScan normalized_away normalized_home rest

/-- The fuzzy pass of `GameMatcher.find_matching_game`: first candidate whose
away and home `token_set_ratio` similarities both reach the threshold. -/
def fuzzyScan (token_set_ratio : Str → Str → ℕ) (fuzzy_threshold : ℕ)
    (normalized_away normalized_home : Str) :
    List Candidate → Option SourceGame
  | [] => none
  | .malformed :: rest =>
    fuzzyScan token_set_ratio fuzzy_threshold normalized_away normalized_home rest
  | .game g :: rest =>
    let game_away := normalize_team_name g.away_team
    let game_home := normalize_team_name g.home_team
    if fuzzy_threshold ≤ token_set_ratio normalized_away game_away ∧
        fuzzy_threshold ≤ token_set_ratio normalized_home game_home then some g
    else fuzzyScan token_set_ratio fuzzy_threshold normalized_away normalized_home rest

/-- `GameMatcher.find_matching_game` (institutional domain): normalize the
canonical pair once, run the exact pass over the whole list, and only if it
fails run the fuzzy (first-match) pass.  `fuzz.token_set_ratio` is passed in
as the abstract similarity function. -/
def find_matching_game (token_set_ratio : Str → Str → ℕ) (fuzzy_threshold : ℕ)
    (away_team home_team : Str) (games_list : List Candidate) :
    Option SourceGame :=
  if games_list = [] then none
  else
    let normalized_away := normalize_team_name away_team
    let normalized_home := normalize_team_name home_team
    match exactScan normalized_away normalized_home games_list with
    | some g => some g
    | none =>
      fuzzyScan token_set_ratio fuzzy_threshold normalized_away normalized_home
        games_list

end GameMatcher

namespace NFLGameMatcher

/-- The exact pass of `NFLGameMatcher.find_matching_game`: first candidate
that matches the normalized canonical pair exactly, in the natural or in the
swapped orientation; a swapped hit returns the `reversed_game` copy. -/
def exactScan (normalized_away normalized_home : Str) :
    List Candidate → Option SourceGame
  | [] => none
  | .malformed :: rest => exactScan normalized_away normalized_home rest
  | .game g :: rest =>
    let game_away := normalize_team_name g.away_team
    let game_home := normalize_team_name g.home_team
    if normalized_away = game_away ∧ normalized_home = game_home then some g
    else if normalized_away = game_home ∧ normalized_home = game_away then
      some (reverseGame g)
    else exactScan normalized_away normalized_home rest

/-- Twice the combined fuzzy score of the mascot matcher for one orientation:
Python computes `score1 = (fuzz.ratio(a, ga) + fuzz.ratio(h, gh)) / 2` (true
division, giving an exactly representable half-integer float); the scan below
carries the doubled score `ratio a ga + ratio h gh` instead, which determines
it. -/
def combinedScoreX2 (ratio : Str → Str → ℕ) (a h ga gh : Str) : ℕ :=
  ratio a ga + ratio h gh

/-- The combined fuzzy score itself,
`(fuzz.ratio(a, ga) + fuzz.ratio(h, gh)) / 2 : ℚ`. -/
def combinedScore (ratio : Str → Str → ℕ) (a h ga gh : Str) : ℚ :=
  (combinedScoreX2 ratio a h ga gh : ℚ) / 2

/-- The fuzzy pass of `NFLGameMatcher.find_matching_game`: best-so-far scan;
for each candidate the natural-orientation score is tried first and the
swapped orientation only in the `elif`, each branch requiring the threshold
and a strictly better score than the best so far.  All scores are carried
doubled (`best_score_x2` is twice Python's `best_score`, which starts at `0`);
by `score_threshold_iff` and `score_lt_iff` the two tests below are exactly
Python's `score1 >= self.fuzzy_threshold and score1 > best_score` and its
`elif` twin. -/
def fuzzyScan (ratio : Str → Str → ℕ) (fuzzy_threshold : ℕ)
    (normalized_away normalized_home : Str) :
    List Candidate → Option SourceGame → ℕ → Option SourceGame
  | [], best_match, _ => best_match
  | .malformed :: rest, best_match, best_score_x2 =>
    fuzzyScan ratio fuzzy_threshold normalized_away normalized_home rest
      best_match best_score_x2
  | .game g :: rest, best_match, best_score_x2 =>
    let game_away := normalize_team_name g.away_team
    let game_home := normalize_team_name g.home_team
    let score1_x2 := combinedScoreX2 ratio normalized_away normalized_home
      game_away game_home
    let score2_x2 := combinedScoreX2 ratio normalized_away normalized_home
      game_home game_away
    if 2 * fuzzy_threshold ≤ score1_x2 ∧ best_score_x2 < score1_x2 then
      fuzzyScan ratio fuzzy_threshold normalized_away normalized_home rest
        (some g) score1_x2
    else if 2 * fuzzy_threshold ≤ score2_x2 ∧ best_score_x2 < score2_x2 then
      fuzzyScan ratio fuzzy_threshold normalized_away normalized_home rest
        (some (reverseGame g)) score2_x2
    else
      fuzzyScan ratio fuzzy_threshold normalized_away normalized_home rest
        best_match best_score_x2

/-- `NFLGameMatcher.find_matching_game` (mascot domain): exact pass (with
swap detection) over the whole list first, then the best-so-far fuzzy pass
started from `best_match = None`, `best_score = 0`.  `fuzz.ratio` is passed
in as the abstract similarity function. -/
def find_matching_game (ratio : Str → Str → ℕ) (fuzzy_threshold : ℕ)
    (away_team home_team : Str) (games_list : List Candidate) :
    Option SourceGame :=
  if games_list = [] then none
  else
    let normalized_away := normalize_team_name away_team
    let normalized_home := normalize_team_name home_team
    match exactScan normalized_away normalized_home games_list with
    | some g => some g
    | none =>
      fuzzyScan ratio fuzzy_threshold normalized_away normalized_home games_list
        none 0

/-- All scored orientations of a candidate list, in scan order: for each
well-shaped candidate, first the natural orientation `(score1, g)` and then
the swapped orientation `(score2, reversed g)`.  Scores are the rational
combined scores of the claim. -/
def scoredList (ratio : Str → Str → ℕ) (normalized_away normalized_home : Str) :
    List Candidate → List (ℚ × SourceGame)
  | [] => []
  | .malformed :: rest => scoredList ratio normalized_away normalized_home rest
  | .game g :: rest =>
    let game_away := normalize_team_name g.away_team
    let game_home := normalize_team_name g.home_team
    (combinedScore ratio normalized_away normalized_home game_away game_home, g) ::
    (combinedScore ratio normalized_away normalized_home game_home game_away,
      reverseGame g) ::
    scoredList ratio normalized_away normalized_home rest

/-- The greatest score occurring in a scored orientation list. -/
def maxScore : List (ℚ × SourceGame) → Option ℚ
  | [] => none
  | (s, _) :: rest =>
    match maxScore rest with
    | none => some s
    | some m => some (max s m)

/-- The earliest-found record carrying score `m`. -/
def firstWith (m : ℚ) : List (ℚ × SourceGame) → Option SourceGame
  | [] => none
  | (s, r) :: rest => if s = m then some r else firstWith m rest

/-- The fuzzy pass as the specification describes it: the global best-scoring
candidate across all candidates and both orientations, provided that best
score meets or exceeds the threshold; on ties the earliest-found best is
kept.  (Modelled from the claim's words, to be compared with the scan the
code performs.) -/
def fuzzy_pass_spec (ratio : Str → Str → ℕ) (fuzzy_threshold : ℕ)
    (normalized_away normalized_home : Str) (games_list : List Candidate) :
    Option SourceGame :=
  let scored := scoredList ratio normalized_away normalized_home games_list
  match maxScore scored with
  | none => none
  | some m => if (fuzzy_threshold : ℚ) ≤ m then firstWith m scored else none

/-- A best-so-far selection scan over an already-scored orientation list:
one strict-improvement test per entry.  `fuzzyScan` unfolds to this scan
whenever no natural orientation that clears the threshold is shadowing a
better swapped orientation of the same candidate. -/
def selScan (fuzzy_threshold : ℕ) :
    List (ℚ × SourceGame) → Option SourceGame → ℚ → Option SourceGame × ℚ
  | [], best, best_score => (best, best_score)
  | (s, r) :: rest, best, best_score =>
    if (fuzzy_threshold : ℚ) ≤ s ∧ best_score < s then selScan fuzzy_threshold rest (some r) s
    else selScan fuzzy_threshold rest best best_score

end NFLGameMatcher

/-- One entry of the canonical (sheets) `games` list: either well-shaped
(`away_team`, `home_team`, `row_number` all present) or malformed (not a dict
or missing one of the three keys), which `match_games` skips with a warning. -/
inductive SheetEntry where
  | malformed : SheetEntry
  | ok (away_team home_team : Str) (row_number : ℤ) : SheetEntry
deriving DecidableEq, Repr

/-- The shape of `self.sheets_data` as tested by `match_games`:
`falsy` covers `None` and the empty dict `{}` (what `load_json_file` returns
on failure), `nonMapping` a truthy non-dict value, and `dict` a non-empty
dict whose `games` key is missing (`noGames`), present but not a list
(`notList`), or a list. -/
inductive GamesField where
  | noGames : GamesField
  | notList : GamesField
  | list (games : List SheetEntry) : GamesField
deriving DecidableEq, Repr

/-- See `GamesField`. -/
inductive SheetsData where
  | falsy : SheetsData
  | nonMapping : SheetsData
  | dict (games : GamesField) : SheetsData
deriving DecidableEq, Repr

/-- One output row of `match_games`: the normalized canonical pair (the
`"sheets"` key of the Python dict) together with the per-source hits, an
insertion-ordered association from source name to the normalized matched
record. -/
structure MatchedGame where
  sheets_away : Str
  sheets_home : Str
  per_source : List (String × SourceGame)
deriving DecidableEq, Repr

/-- The `results` dict built by `match_games`: `sheets_total`, one
`<source>_matched` counter per configured source (kept as an association in
source order), and the `matched_sheets_rows` mapping keyed by `str(row_number)`. -/
structure MatchSummary where
  sheets_total : ℕ
  counts : List (String × ℕ)
  matched_sheets_rows : List (String × MatchedGame)
deriving DecidableEq, Repr

/-- Processing of one well-formed sheet game inside `match_games`: try every
configured source in order; a hit is normalized (team names rewritten through
`normalize`) and recorded under the source's key, and that source's counter
is bumped. -/
def processSources (find : Str → Str → List Candidate → Option SourceGame)
    (normalize : Str → Str) (away_team home_team : Str) :
    List (String × List Candidate) → List (String × SourceGame) →
      List (String × ℕ) → List (String × SourceGame) × List (String × ℕ)
  | [], per_source, counts => (per_source, counts)
  | (source_name, games_list) :: rest, per_source, counts =>
    match find away_team home_team games_list with
    | some m =>
      let normalized_match :=
        { m with away_team := normalize m.away_team,
                 home_team := normalize m.home_team }
      processSources find normalize away_team home_team rest
        (per_source ++ [(source_name, normalized_match)])
        (counts.map (fun p => if p.1 = source_name then (p.1, p.2 + 1) else p))
    | none => processSources find normalize away_team home_team rest per_source counts

/-- The body of the `for sheet_game in self.sheets_data['games']` loop of
`match_games`. -/
def processSheetGame (find : Str → Str → List Candidate → Option SourceGame)
    (normalize : Str → Str) (sources : List (String × List Candidate))
    (acc : MatchSummary) : SheetEntry → MatchSummary
  | .malformed => acc
  | .ok away_team home_team row_number =>
    let row_key := toString row_number
    let normalized_away := normalize away_team
    let normalized_home := normalize home_team
    let step := processSources find normalize away_team home_team sources [] acc.counts
    { acc with
        counts := step.2
        matched_sheets_rows :=
          dictInsert row_key
            { sheets_away := normalized_away, sheets_home := normalized_home,
              per_source := step.1 }
            acc.matched_sheets_rows }

/-- The `match_games` driver shared by both matcher classes (their loops are
line-for-line identical; the matcher-specific `find_matching_game` and
`normalize_team_name` and the configured source lists enter as parameters).
Python returns the empty dict `{}` when the sheets data is falsy, not a dict,
or has no list under `games`; that degenerate return is modelled as `none`,
and a populated summary as `some`. -/
def matchGamesCore (find : Str → Str → List Candidate → Option SourceGame)
    (normalize : Str → Str) (sheets_data : SheetsData)
    (sources : List (String × List Candidate)) : Option MatchSummary :=
  match sheets_data with
  | .falsy => none
  | .nonMapping => none
  | .dict .noGames => none
  | .dict .notList => none
  | .dict (.list games) =>
    some (games.foldl (processSheetGame find normalize sources)
      { sheets_total := games.length
        counts := sources.map (fun p => (p.1, 0))
        matched_sheets_rows := [] })

/-- `GameMatcher.match_games` (institutional domain), with the loaded sheets
data and the prepared `sources` dict (`dimers`, `oddshark`, `espn`,
`dratings` in the source) as inputs. -/
def GameMatcher.match_games (token_set_ratio : Str → Str → ℕ)
    (fuzzy_threshold : ℕ) (sheets_data : SheetsData)
    (sources : List (String × List Candidate)) : Option MatchSummary :=
  matchGamesCore (GameMatcher.find_matching_game token_set_ratio fuzzy_threshold)
    GameMatcher.normalize_team_name sheets_data sources

/-- `NFLGameMatcher.match_games` (mascot domain), with the loaded sheets data
and the prepared `sources` dict (eight sources in the source) as inputs. -/
def NFLGameMatcher.match_games (ratio : Str → Str → ℕ) (fuzzy_threshold : ℕ)
    (sheets_data : SheetsData) (sources : List (String × List Candidate)) :
    Option MatchSummary :=
  matchGamesCore (NFLGameMatcher.find_matching_game ratio fuzzy_threshold)
    NFLGameMatcher.normalize_team_name sheets_data sources

/-- The possible states of the file a matcher is asked to load: absent,
unreadable (the `open`/`read` raises), syntactically invalid JSON, valid JSON
whose top level is not an object, or a parsed top-level object `d`. -/
inductive FileState (α : Type) where
  | absent : FileState α
  | unreadable : FileState α
  | invalidJson : FileState α
  | parsedNonDict : FileState α
  | parsedDict (d : α) : FileState α
deriving DecidableEq, Repr

/-- `load_json_file` (identical in both matcher classes): missing file,
unreadable file, invalid JSON and a non-dict top level all produce the empty
dict (`none` here); a parsed top-level dict is returned as is.  Every failure
is swallowed (the function is total), which is exactly the loader's
never-raise contract. -/
def load_json_file {α : Type} : FileState α → Option α
  | .absent => none
  | .unreadable => none
  | .invalidJson => none
  | .parsedNonDict => none
  | .parsedDict d => some d








/-- The candidate of the spec's swap-correctness scenario. -/
def ravensBillsCandidate : SourceGame :=
  { away_team := "Bills".data
    home_team := "Ravens".data
    predicted_score_away := some 20
    predicted_score_home := some 24 }

/-- The record the spec expects back for the swap-correctness scenario. -/
def ravensBillsSwapped : SourceGame :=
  { away_team := "Ravens".data
    home_team := "Bills".data
    predicted_score_away := some 24
    predicted_score_home := some 20 }


/-- Exact-matching second candidate behind a higher-fuzzy first candidate,
institutional side of the C3 witness. -/
def c3ExactGm : SourceGame := { away_team := "Aaa".data, home_team := "Bbb".data }
/-- The institutional-side candidate of the C4 witness. -/
def c4GmGame : SourceGame := { away_team := "Ccc".data, home_team := "Ddd".data }
/-- The mascot-side candidate of the C4 witness. -/
def c4NflGame : SourceGame := { away_team := "Cc".data, home_team := "Dd".data }
/-- The candidate used in the C1 witness and counterexample. -/
def c1Game : SourceGame := { away_team := "Rr".data, home_team := "Ss".data }
/-- A concrete similarity table on normalized names: the natural orientation
of `c1Game` against canonical ("Pp","Qq") combines to 85, the swapped
orientation to 100. -/
def c1Ratio : Str → Str → ℕ := fun a b =>
  if a = "pp".data ∧ b = "rr".data then 80
  else if a = "qq".data ∧ b = "ss".data then 90
  else 100
/-- The row key used by `match_games`: Python's `str(sheet_game['row_number'])`
for well-formed entries. -/
def sheetRowKey : SheetEntry → String
  | .malformed => ""
  | .ok _ _ r => toString r
/-- The single source record of the C2 scenario. -/
def c2Candidate : SourceGame := { away_team := "A".data, home_team := "B".data }
/-- The `MatchedGame` produced for *both* canonical rows in the C2 scenario. -/
def c2Matched : MatchedGame :=
  { sheets_away := "A".data, sheets_home := "B".data,
    per_source := [("dimers", c2Candidate)] }
/-- The full summary of the C2 scenario: two canonical rows, one source with
one candidate. -/
def c2Sheets : SheetsData :=
  SheetsData.dict (GamesField.list
    [SheetEntry.ok "A".data "B".data 1, SheetEntry.ok "A".data "B".data 2])
/-- The ASCII uppercase letters (the only characters `lowerChar` moves). -/
def upperChars : List Char :=
  ['A','B','C','D','E','F','G','H','I','J','K','L','M','N','O','P','Q','R','S','T','U','V','W','X','Y','Z']
/-- The ASCII lowercase letters (the image of `upperChars` under `lowerChar`). -/
def lowerChars : List Char :=
  ['a','b','c','d','e','f','g','h','i','j','k','l','m','n','o','p','q','r','s','t','u','v','w','x','y','z']
/-- The mascot-collapse middle step of `NFLGameMatcher.normalize_team_name`,
named so the normalizer can be decomposed in proofs:
`normalize x = pyStrip (pyLower (nflCollapse (pyStrip x)))` for nonempty `x`
(see `nfl_normalize_expand`). -/
def nflCollapse (name : Str) : Str :=
  if ' ' ∈ name then
    let parts := splitWs name
    if 1 < parts.length then
      let last_word := parts.getLastD []
      if NFLGameMatcher.nfl_teams.any
          (fun team => pyLower team = pyLower last_word) then last_word
      else name
    else name
  else name

/-! ## Supporting lemmas -/

/-- Python's `score >= self.fuzzy_threshold` test, rendered on doubled
scores: `(n : ℚ) / 2 ≥ T` iff `n ≥ 2 * T`. -/
theorem NFLGameMatcher.score_threshold_iff (T n : ℕ) : (T : ℚ) ≤ (n : ℚ) / 2 ↔ 2 * T ≤ n := by
  rw [le_div_iff₀ (by norm_num : (0 : ℚ) < 2)]
  constructor
  · intro h
    exact_mod_cast (by push_cast at h ⊢; linarith : ((2 * T : ℕ) : ℚ) ≤ (n : ℚ))
  · intro h
    have : ((2 * T : ℕ) : ℚ) ≤ (n : ℚ) := by exact_mod_cast h
    push_cast at this ⊢
    linarith
/-- Python's `score > best_score` test, rendered on doubled scores:
`(b : ℚ) / 2 < (n : ℚ) / 2` iff `b < n`. -/
theorem NFLGameMatcher.score_lt_iff (b n : ℕ) : (b : ℚ) / 2 < (n : ℚ) / 2 ↔ b < n := by
  rw [div_lt_div_iff₀ (by norm_num : (0 : ℚ) < 2) (by norm_num : (0 : ℚ) < 2)]
  constructor
  · intro h
    exact_mod_cast lt_of_mul_lt_mul_right h (by norm_num : (0 : ℚ) ≤ 2)
  · intro h
    have : (b : ℚ) < (n : ℚ) := by exact_mod_cast h
    linarith
/-- Python's `score == T` (threshold-boundary) test on doubled scores. -/
theorem NFLGameMatcher.score_eq_iff (T n : ℕ) : (n : ℚ) / 2 = (T : ℚ) ↔ n = 2 * T := by
  rw [div_eq_iff (by norm_num : (2 : ℚ) ≠ 0)]
  constructor
  · intro h
    exact_mod_cast (by push_cast at h ⊢; linarith : (n : ℚ) = ((2 * T : ℕ) : ℚ))
  · intro h
    have : (n : ℚ) = ((2 * T : ℕ) : ℚ) := by exact_mod_cast h
    push_cast at this ⊢
    linarith

theorem reverseGame_away_team (g : SourceGame) :
    (reverseGame g).away_team = g.home_team := by
  unfold reverseGame
  dsimp only
  split <;> split <;> rfl

theorem reverseGame_home_team (g : SourceGame) :
    (reverseGame g).home_team = g.away_team := by
  unfold reverseGame
  dsimp only
  split <;> split <;> rfl

theorem gm_exactScan_sound (na nh : Str) :
    ∀ (l : List Candidate) (g : SourceGame),
      GameMatcher.exactScan na nh l = some g →
      GameMatcher.normalize_team_name g.away_team = na ∧
        GameMatcher.normalize_team_name g.home_team = nh := by
  intro l
  induction l with
  | nil => intro g h; simp [GameMatcher.exactScan] at h
  | cons c rest ih =>
    intro g h
    cases c with
    | malformed => exact ih g (by simpa [GameMatcher.exactScan] using h)
    | game g' =>
      rw [GameMatcher.exactScan] at h
      by_cases hc : na = GameMatcher.normalize_team_name g'.away_team ∧
          nh = GameMatcher.normalize_team_name g'.home_team
      · rw [if_pos hc] at h
        obtain rfl : g' = g := by simpa using h
        exact ⟨hc.1.symm, hc.2.symm⟩
      · rw [if_neg hc] at h
        exact ih g h

theorem gm_exactScan_isSome (na nh : Str) :
    ∀ l : List Candidate,
      (∃ g : SourceGame, Candidate.game g ∈ l ∧
        GameMatcher.normalize_team_name g.away_team = na ∧
        GameMatcher.normalize_team_name g.home_team = nh) →
      (GameMatcher.exactScan na nh l).isSome := by
  intro l
  induction l with
  | nil => rintro ⟨g, hg, -, -⟩; simp at hg
  | cons c rest ih =>
    rintro ⟨g, hg, ha, hh⟩
    cases c with
    | malformed =>
      rw [GameMatcher.exactScan]
      apply ih
      refine ⟨g, ?_, ha, hh⟩
      simpa using hg
    | game g' =>
      rw [GameMatcher.exactScan]
      by_cases hc : na = GameMatcher.normalize_team_name g'.away_team ∧
          nh = GameMatcher.normalize_team_name g'.home_team
      · rw [if_pos hc]; rfl
      · rw [if_neg hc]
        apply ih
        rcases List.mem_cons.mp hg with heq | hmem
        · exfalso
          obtain rfl : g = g' := by simpa using heq
          exact hc ⟨ha.symm, hh.symm⟩
        · exact ⟨g, hmem, ha, hh⟩

theorem nfl_exactScan_sound (na nh : Str) :
    ∀ (l : List Candidate) (g : SourceGame),
      NFLGameMatcher.exactScan na nh l = some g →
      NFLGameMatcher.normalize_team_name g.away_team = na ∧
        NFLGameMatcher.normalize_team_name g.home_team = nh := by
  intro l
  induction l with
  | nil => intro g h; simp [NFLGameMatcher.exactScan] at h
  | cons c rest ih =>
    intro g h
    cases c with
    | malformed => exact ih g (by simpa [NFLGameMatcher.exactScan] using h)
    | game g' =>
      rw [NFLGameMatcher.exactScan] at h
      by_cases hc : na = NFLGameMatcher.normalize_team_name g'.away_team ∧
          nh = NFLGameMatcher.normalize_team_name g'.home_team
      · rw [if_pos hc] at h
        obtain rfl : g' = g := by simpa using h
        exact ⟨hc.1.symm, hc.2.symm⟩
      · rw [if_neg hc] at h
        by_cases hs : na = NFLGameMatcher.normalize_team_name g'.home_team ∧
            nh = NFLGameMatcher.normalize_team_name g'.away_team
        · rw [if_pos hs] at h
          obtain rfl : reverseGame g' = g := by simpa using h
          rw [reverseGame_away_team, reverseGame_home_team]
          exact ⟨hs.1.symm, hs.2.symm⟩
        · rw [if_neg hs] at h
          exact ih g h

theorem nfl_exactScan_isSome (na nh : Str) :
    ∀ l : List Candidate,
      (∃ g : SourceGame, Candidate.game g ∈ l ∧
        ((NFLGameMatcher.normalize_team_name g.away_team = na ∧
          NFLGameMatcher.normalize_team_name g.home_team = nh) ∨
         (NFLGameMatcher.normalize_team_name g.home_team = na ∧
          NFLGameMatcher.normalize_team_name g.away_team = nh))) →
      (NFLGameMatcher.exactScan na nh l).isSome := by
  intro l
  induction l with
  | nil => rintro ⟨g, hg, -⟩; simp at hg
  | cons c rest ih =>
    rintro ⟨g, hg, hor⟩
    cases c with
    | malformed =>
      rw [NFLGameMatcher.exactScan]
      apply ih
      refine ⟨g, ?_, hor⟩
      simpa using hg
    | game g' =>
      rw [NFLGameMatcher.exactScan]
      by_cases hc : na = NFLGameMatcher.normalize_team_name g'.away_team ∧
          nh = NFLGameMatcher.normalize_team_name g'.home_team
      · rw [if_pos hc]; rfl
      · rw [if_neg hc]
        by_cases hs : na = NFLGameMatcher.normalize_team_name g'.home_team ∧
            nh = NFLGameMatcher.normalize_team_name g'.away_team
        · rw [if_pos hs]; rfl
        · rw [if_neg hs]
          apply ih
          rcases List.mem_cons.mp hg with heq | hmem
          · exfalso
            obtain rfl : g = g' := by simpa using heq
            rcases hor with ⟨ha, hh⟩ | ⟨ha, hh⟩
            · exact hc ⟨ha.symm, hh.symm⟩
            · exact hs ⟨ha.symm, hh.symm⟩
          · exact ⟨g, hmem, hor⟩

/-! ## Claim theorems: exact pass, swap correctness, normalization values,
loader, degenerate aggregation -/

/-- C3: in both matchers, if some candidate normalizes to exact equality with
the canonical pair (for the mascot matcher, in the natural or the swapped
orientation), then `find_matching_game` returns a record normalizing to
exactly the canonical pair — whatever the similarity function and threshold,
so in particular even when a non-exact candidate with a higher fuzzy score
occurs earlier in the list: the exact pass scans the whole list before any
fuzzy comparison. -/
theorem C3_exact_match_beats_fuzzy (token_set_ratio ratio : Str → Str → ℕ)
    (gm_threshold nfl_threshold : ℕ) (away_team home_team : Str)
    (games_list : List Candidate) :
    ((∃ g : SourceGame, Candidate.game g ∈ games_list ∧
        GameMatcher.normalize_team_name g.away_team =
          GameMatcher.normalize_team_name away_team ∧
        GameMatcher.normalize_team_name g.home_team =
          GameMatcher.normalize_team_name home_team) →
      ∃ m : SourceGame,
        GameMatcher.find_matching_game token_set_ratio gm_threshold away_team
            home_team games_list = some m ∧
        GameMatcher.normalize_team_name m.away_team =
          GameMatcher.normalize_team_name away_team ∧
        GameMatcher.normalize_team_name m.home_team =
          GameMatcher.normalize_team_name home_team) ∧
    ((∃ g : SourceGame, Candidate.game g ∈ games_list ∧
        ((NFLGameMatcher.normalize_team_name g.away_team =
            NFLGameMatcher.normalize_team_name away_team ∧
          NFLGameMatcher.normalize_team_name g.home_team =
            NFLGameMatcher.normalize_team_name home_team) ∨
         (NFLGameMatcher.normalize_team_name g.home_team =
            NFLGameMatcher.normalize_team_name away_team ∧
          NFLGameMatcher.normalize_team_name g.away_team =
            NFLGameMatcher.normalize_team_name home_team))) →
      ∃ m : SourceGame,
        NFLGameMatcher.find_matching_game ratio nfl_threshold away_team
            home_team games_list = some m ∧
        NFLGameMatcher.normalize_team_name m.away_team =
          NFLGameMatcher.normalize_team_name away_team ∧
        NFLGameMatcher.normalize_team_name m.home_team =
          NFLGameMatcher.normalize_team_name home_team) := by
  constructor
  · rintro ⟨g, hg, ha, hh⟩
    have hne : games_list ≠ [] := List.ne_nil_of_mem hg
    have hsome := gm_exactScan_isSome
      (GameMatcher.normalize_team_name away_team)
      (GameMatcher.normalize_team_name home_team) games_list ⟨g, hg, ha, hh⟩
    rcases heq : GameMatcher.exactScan (GameMatcher.normalize_team_name away_team)
        (GameMatcher.normalize_team_name home_team) games_list with - | m
    · rw [heq] at hsome; simp at hsome
    · refine ⟨m, ?_, gm_exactScan_sound _ _ games_list m heq⟩
      simp [GameMatcher.find_matching_game, hne, heq]
  · rintro ⟨g, hg, hor⟩
    have hne : games_list ≠ [] := List.ne_nil_of_mem hg
    have hsome := nfl_exactScan_isSome
      (NFLGameMatcher.normalize_team_name away_team)
      (NFLGameMatcher.normalize_team_name home_team) games_list ⟨g, hg, hor⟩
    rcases heq : NFLGameMatcher.exactScan
        (NFLGameMatcher.normalize_team_name away_team)
        (NFLGameMatcher.normalize_team_name home_team) games_list with - | m
    · rw [heq] at hsome; simp at hsome
    · refine ⟨m, ?_, nfl_exactScan_sound _ _ games_list m heq⟩
      simp [NFLGameMatcher.find_matching_game, hne, heq]

/-- Witness for C3 at concrete inputs: both similarity functions are
constantly 100, so the non-exact candidates placed first would win any fuzzy
comparison; the exact candidates are still returned. -/
theorem C3_exact_match_beats_fuzzy_witness :
    (∃ m : SourceGame,
      GameMatcher.find_matching_game (fun _ _ => 100) 85 "Aaa".data "Bbb".data
          [Candidate.game { away_team := "Qq".data, home_team := "Rr".data },
           Candidate.game c3ExactGm] = some m ∧
      GameMatcher.normalize_team_name m.away_team =
        GameMatcher.normalize_team_name "Aaa".data ∧
      GameMatcher.normalize_team_name m.home_team =
        GameMatcher.normalize_team_name "Bbb".data) ∧
    (∃ m : SourceGame,
      NFLGameMatcher.find_matching_game (fun _ _ => 100) 80 "Ravens".data
          "Bills".data
          [Candidate.game { away_team := "Qq".data, home_team := "Rr".data },
           Candidate.game { away_team := "Bills".data, home_team := "Ravens".data }]
          = some m ∧
      NFLGameMatcher.normalize_team_name m.away_team =
        NFLGameMatcher.normalize_team_name "Ravens".data ∧
      NFLGameMatcher.normalize_team_name m.home_team =
        NFLGameMatcher.normalize_team_name "Bills".data) :=
  ⟨(C3_exact_match_beats_fuzzy (fun _ _ => 100) (fun _ _ => 100) 85 80
      "Aaa".data "Bbb".data _).1
    ⟨c3ExactGm, by decide, by decide, by decide⟩,
   (C3_exact_match_beats_fuzzy (fun _ _ => 100) (fun _ _ => 100) 85 80
      "Ravens".data "Bills".data _).2
    ⟨{ away_team := "Bills".data, home_team := "Ravens".data }, by decide,
      Or.inr (by decide)⟩⟩

/-- C5: swap correctness in the mascot domain.  For canonical
`(away="Ravens", home="Bills")` and the single candidate
`{away:"Bills", home:"Ravens", predicted 20–24}`, `find_matching_game`
returns the candidate with team names and the score pair both exchanged —
for any similarity function and any threshold (the hit happens in the exact
pass, swapped orientation). -/
theorem C5_swap_correctness (ratio : Str → Str → ℕ) (fuzzy_threshold : ℕ) :
    NFLGameMatcher.find_matching_game ratio fuzzy_threshold "Ravens".data
      "Bills".data [Candidate.game ravensBillsCandidate]
    = some ravensBillsSwapped := by
  rfl

/-- C7: the institutional normalizer truncates
`"University of California, Berkeley"` at the comma, yielding exactly
`"University of California"`; and the empty (falsy) string is returned
unchanged by both normalizers (the functions are total — nothing is raised). -/
theorem C7_comma_truncation_and_empty :
    GameMatcher.normalize_team_name "University of California, Berkeley".data
      = "University of California".data ∧
    GameMatcher.normalize_team_name [] = [] ∧
    NFLGameMatcher.normalize_team_name [] = [] := by
  refine ⟨by decide, rfl, rfl⟩

/-- C8: the source loader never raises: it is a total function into
`Option`, empty (`none`, Python `{}`) exactly when the file is absent, the
read fails, the contents are not valid JSON, or the top level is not a dict —
and otherwise returns the parsed mapping unchanged. -/
theorem C8_loader_never_raises (α : Type) (fs : FileState α) :
    (load_json_file fs = none ↔
      fs = FileState.absent ∨ fs = FileState.unreadable ∨
      fs = FileState.invalidJson ∨ fs = FileState.parsedNonDict) ∧
    (∀ d : α, load_json_file fs = some d ↔ fs = FileState.parsedDict d) := by
  cases fs <;> simp [load_json_file]

/-- C10: when the sheets data is falsy, not a mapping, lacks a `games` key,
or holds a non-list `games` value, both `match_games` return the completely
empty mapping (modelled `none`) — with no `sheets_total`, counters or
`matched_sheets_rows` — whereas a present-but-empty games list produces the
zeroed summary `some ⟨0, zero counters, {}⟩`. -/
theorem C10_degenerate_sheets_empty_result (token_set_ratio ratio : Str → Str → ℕ)
    (gm_threshold nfl_threshold : ℕ) (sources : List (String × List Candidate)) :
    (GameMatcher.match_games token_set_ratio gm_threshold SheetsData.falsy sources
        = none ∧
     GameMatcher.match_games token_set_ratio gm_threshold SheetsData.nonMapping
        sources = none ∧
     GameMatcher.match_games token_set_ratio gm_threshold
        (SheetsData.dict GamesField.noGames) sources = none ∧
     GameMatcher.match_games token_set_ratio gm_threshold
        (SheetsData.dict GamesField.notList) sources = none ∧
     GameMatcher.match_games token_set_ratio gm_threshold
        (SheetsData.dict (GamesField.list [])) sources
        = some { sheets_total := 0, counts := sources.map (fun p => (p.1, 0)),
                 matched_sheets_rows := [] }) ∧
    (NFLGameMatcher.match_games ratio nfl_threshold SheetsData.falsy sources
        = none ∧
     NFLGameMatcher.match_games ratio nfl_threshold SheetsData.nonMapping sources
        = none ∧
     NFLGameMatcher.match_games ratio nfl_threshold
        (SheetsData.dict GamesField.noGames) sources = none ∧
     NFLGameMatcher.match_games ratio nfl_threshold
        (SheetsData.dict GamesField.notList) sources = none ∧
     NFLGameMatcher.match_games ratio nfl_threshold
        (SheetsData.dict (GamesField.list [])) sources
        = some { sheets_total := 0, counts := sources.map (fun p => (p.1, 0)),
                 matched_sheets_rows := [] }) :=
  ⟨⟨rfl, rfl, rfl, rfl, rfl⟩, ⟨rfl, rfl, rfl, rfl, rfl⟩⟩

/-! ## Threshold boundary (C4) -/

/-- The strict side of `score_threshold_iff`. -/
theorem score_lt_threshold_iff (T n : ℕ) : (n : ℚ) / 2 < (T : ℚ) ↔ n < 2 * T := by
  rw [← not_le, ← not_le, not_iff_not]
  exact NFLGameMatcher.score_threshold_iff T n

/-- C4 (amended): a candidate scoring exactly the configured threshold is
matched and one below it is not — with the one proviso the best-so-far
initialisation forces: in the mascot matcher the threshold must be positive,
because `best_score` starts at `0` and the update needs `score > best_score`,
so with threshold `0` a candidate combining to score `0` is *not* matched
(see the counterexample).  Here for a single-candidate list: (1)
institutional accept when both token-set similarities equal the threshold,
(2) institutional reject when the candidate is not exact and either
similarity is below the threshold, (3) mascot accept when the combined
natural-orientation score equals a positive threshold, (4) mascot reject when
the candidate is not exact and both orientations combine below the
threshold. -/
theorem C4_threshold_boundary_amended (token_set_ratio ratio : Str → Str → ℕ)
    (gm_threshold nfl_threshold : ℕ) (away_team home_team : Str)
    (g : SourceGame) :
    ((token_set_ratio (GameMatcher.normalize_team_name away_team)
        (GameMatcher.normalize_team_name g.away_team) = gm_threshold →
      token_set_ratio (GameMatcher.normalize_team_name home_team)
        (GameMatcher.normalize_team_name g.home_team) = gm_threshold →
      GameMatcher.find_matching_game token_set_ratio gm_threshold away_team
        home_team [Candidate.game g] = some g)) ∧
    ((¬ (GameMatcher.normalize_team_name away_team =
          GameMatcher.normalize_team_name g.away_team ∧
        GameMatcher.normalize_team_name home_team =
          GameMatcher.normalize_team_name g.home_team)) →
      (token_set_ratio (GameMatcher.normalize_team_name away_team)
          (GameMatcher.normalize_team_name g.away_team) < gm_threshold ∨
       token_set_ratio (GameMatcher.normalize_team_name home_team)
          (GameMatcher.normalize_team_name g.home_team) < gm_threshold) →
      GameMatcher.find_matching_game token_set_ratio gm_threshold away_team
        home_team [Candidate.game g] = none) ∧
    (0 < nfl_threshold →
      (¬ (NFLGameMatcher.normalize_team_name away_team =
            NFLGameMatcher.normalize_team_name g.away_team ∧
          NFLGameMatcher.normalize_team_name home_team =
            NFLGameMatcher.normalize_team_name g.home_team)) →
      (¬ (NFLGameMatcher.normalize_team_name away_team =
            NFLGameMatcher.normalize_team_name g.home_team ∧
          NFLGameMatcher.normalize_team_name home_team =
            NFLGameMatcher.normalize_team_name g.away_team)) →
      NFLGameMatcher.combinedScore ratio
          (NFLGameMatcher.normalize_team_name away_team)
          (NFLGameMatcher.normalize_team_name home_team)
          (NFLGameMatcher.normalize_team_name g.away_team)
          (NFLGameMatcher.normalize_team_name g.home_team)
        = (nfl_threshold : ℚ) →
      NFLGameMatcher.find_matching_game ratio nfl_threshold away_team home_team
        [Candidate.game g] = some g) ∧
    ((¬ (NFLGameMatcher.normalize_team_name away_team =
            NFLGameMatcher.normalize_team_name g.away_team ∧
          NFLGameMatcher.normalize_team_name home_team =
            NFLGameMatcher.normalize_team_name g.home_team)) →
      (¬ (NFLGameMatcher.normalize_team_name away_team =
            NFLGameMatcher.normalize_team_name g.home_team ∧
          NFLGameMatcher.normalize_team_name home_team =
            NFLGameMatcher.normalize_team_name g.away_team)) →
      NFLGameMatcher.combinedScore ratio
          (NFLGameMatcher.normalize_team_name away_team)
          (NFLGameMatcher.normalize_team_name home_team)
          (NFLGameMatcher.normalize_team_name g.away_team)
          (NFLGameMatcher.normalize_team_name g.home_team)
        < (nfl_threshold : ℚ) →
      NFLGameMatcher.combinedScore ratio
          (NFLGameMatcher.normalize_team_name away_team)
          (NFLGameMatcher.normalize_team_name home_team)
          (NFLGameMatcher.normalize_team_name g.home_team)
          (NFLGameMatcher.normalize_team_name g.away_team)
        < (nfl_threshold : ℚ) →
      NFLGameMatcher.find_matching_game ratio nfl_threshold away_team home_team
        [Candidate.game g] = none) := by
  refine ⟨?_, ?_, ?_, ?_⟩
  · intro ha hh
    by_cases hc : GameMatcher.normalize_team_name away_team =
        GameMatcher.normalize_team_name g.away_team ∧
        GameMatcher.normalize_team_name home_team =
        GameMatcher.normalize_team_name g.home_team
    · simp [GameMatcher.find_matching_game, GameMatcher.exactScan, hc]
    · simp [GameMatcher.find_matching_game, GameMatcher.exactScan,
        GameMatcher.fuzzyScan, hc, ha.ge, hh.ge]
  · intro hc hlt
    have hcond : ¬ (gm_threshold ≤ token_set_ratio
        (GameMatcher.normalize_team_name away_team)
        (GameMatcher.normalize_team_name g.away_team) ∧
      gm_threshold ≤ token_set_ratio
        (GameMatcher.normalize_team_name home_team)
        (GameMatcher.normalize_team_name g.home_team)) := by
      rcases hlt with h | h
      · exact fun hand => absurd hand.1 (not_le.mpr h)
      · exact fun hand => absurd hand.2 (not_le.mpr h)
    simp [GameMatcher.find_matching_game, GameMatcher.exactScan,
      GameMatcher.fuzzyScan, hc, hcond]
  · intro hTpos hc hs heq
    have hx2 : NFLGameMatcher.combinedScoreX2 ratio
        (NFLGameMatcher.normalize_team_name away_team)
        (NFLGameMatcher.normalize_team_name home_team)
        (NFLGameMatcher.normalize_team_name g.away_team)
        (NFLGameMatcher.normalize_team_name g.home_team) = 2 * nfl_threshold :=
      (NFLGameMatcher.score_eq_iff nfl_threshold _).mp heq
    simp [NFLGameMatcher.find_matching_game, NFLGameMatcher.exactScan,
      NFLGameMatcher.fuzzyScan, hc, hs, hx2, hTpos.ne']
  · intro hc hs h1 h2
    have hx1 : NFLGameMatcher.combinedScoreX2 ratio
        (NFLGameMatcher.normalize_team_name away_team)
        (NFLGameMatcher.normalize_team_name home_team)
        (NFLGameMatcher.normalize_team_name g.away_team)
        (NFLGameMatcher.normalize_team_name g.home_team) < 2 * nfl_threshold :=
      (score_lt_threshold_iff nfl_threshold _).mp h1
    have hx2 : NFLGameMatcher.combinedScoreX2 ratio
        (NFLGameMatcher.normalize_team_name away_team)
        (NFLGameMatcher.normalize_team_name home_team)
        (NFLGameMatcher.normalize_team_name g.home_team)
        (NFLGameMatcher.normalize_team_name g.away_team) < 2 * nfl_threshold :=
      (score_lt_threshold_iff nfl_threshold _).mp h2
    simp [NFLGameMatcher.find_matching_game, NFLGameMatcher.exactScan,
      NFLGameMatcher.fuzzyScan, hc, hs, Nat.not_le.mpr hx1, Nat.not_le.mpr hx2]

/-- Witness for C4 at the spec's own numbers: institutional threshold 85 with
token-set similarities 85 (matched) and 84 (unmatched); mascot threshold 80
with combined scores 80 (matched) and 79 (unmatched). -/
theorem C4_threshold_boundary_witness :
    GameMatcher.find_matching_game (fun _ _ => 85) 85 "Aaa".data "Bbb".data
        [Candidate.game c4GmGame] = some c4GmGame ∧
    GameMatcher.find_matching_game (fun _ _ => 84) 85 "Aaa".data "Bbb".data
        [Candidate.game c4GmGame] = none ∧
    NFLGameMatcher.find_matching_game (fun _ _ => 80) 80 "Aa".data "Bb".data
        [Candidate.game c4NflGame] = some c4NflGame ∧
    NFLGameMatcher.find_matching_game (fun _ _ => 79) 80 "Aa".data "Bb".data
        [Candidate.game c4NflGame] = none :=
  ⟨(C4_threshold_boundary_amended (fun _ _ => 85) (fun _ _ => 0) 85 80
      "Aaa".data "Bbb".data c4GmGame).1 rfl rfl,
   (C4_threshold_boundary_amended (fun _ _ => 84) (fun _ _ => 0) 85 80
      "Aaa".data "Bbb".data c4GmGame).2.1 (by decide) (Or.inl (by decide)),
   (C4_threshold_boundary_amended (fun _ _ => 0) (fun _ _ => 80) 85 80
      "Aa".data "Bb".data c4NflGame).2.2.1 (by decide) (by decide) (by decide)
     (by norm_num [NFLGameMatcher.combinedScore, NFLGameMatcher.combinedScoreX2]),
   (C4_threshold_boundary_amended (fun _ _ => 0) (fun _ _ => 79) 85 80
      "Aa".data "Bb".data c4NflGame).2.2.2 (by decide) (by decide)
     (by norm_num [NFLGameMatcher.combinedScore, NFLGameMatcher.combinedScoreX2])
     (by norm_num [NFLGameMatcher.combinedScore, NFLGameMatcher.combinedScoreX2])⟩

/-- Counterexample to C4 as stated: with the configurable threshold `0`
(the configuration surface allows 0–100), a mascot candidate whose combined
score equals the threshold exactly is *not* matched — the best-so-far update
needs a strictly positive score. -/
theorem C4_threshold_boundary_counterexample :
    NFLGameMatcher.combinedScore (fun _ _ => 0)
        (NFLGameMatcher.normalize_team_name "Aa".data)
        (NFLGameMatcher.normalize_team_name "Bb".data)
        (NFLGameMatcher.normalize_team_name "Cc".data)
        (NFLGameMatcher.normalize_team_name "Dd".data) = ((0 : ℕ) : ℚ) ∧
    NFLGameMatcher.find_matching_game (fun _ _ => 0) 0 "Aa".data "Bb".data
        [Candidate.game { away_team := "Cc".data, home_team := "Dd".data }]
      = none :=
  ⟨by norm_num [NFLGameMatcher.combinedScore, NFLGameMatcher.combinedScoreX2],
   by decide⟩

/-! ## The mascot fuzzy pass versus the global-best specification (C1) -/

/-- `maxScore` is `none` exactly on the empty list. -/
theorem nfl_maxScore_eq_none_iff :
    ∀ l : List (ℚ × SourceGame), NFLGameMatcher.maxScore l = none ↔ l = [] := by
  intro l
  cases l with
  | nil => simp [NFLGameMatcher.maxScore]
  | cons p rest =>
    simp only [NFLGameMatcher.maxScore]
    cases NFLGameMatcher.maxScore rest <;> simp

/-- The `if`/`elif` best-so-far scan of the code coincides with the one-test-
per-orientation scan `selScan` over the scored orientation list, as long as no
candidate has a natural orientation that clears the threshold while its
swapped orientation scores strictly higher (the `elif` never hides anything
then).  States are carried doubled on the code side. -/
theorem nfl_fuzzyScan_eq_selScan (ratio : Str → Str → ℕ) (T : ℕ) (na nh : Str) :
    ∀ (l : List Candidate) (best : Option SourceGame) (bx : ℕ),
      (∀ g : SourceGame, Candidate.game g ∈ l →
        (T : ℚ) ≤ NFLGameMatcher.combinedScore ratio na nh
            (NFLGameMatcher.normalize_team_name g.away_team)
            (NFLGameMatcher.normalize_team_name g.home_team) →
        NFLGameMatcher.combinedScore ratio na nh
            (NFLGameMatcher.normalize_team_name g.home_team)
            (NFLGameMatcher.normalize_team_name g.away_team) ≤
          NFLGameMatcher.combinedScore ratio na nh
            (NFLGameMatcher.normalize_team_name g.away_team)
            (NFLGameMatcher.normalize_team_name g.home_team)) →
      NFLGameMatcher.fuzzyScan ratio T na nh l best bx
        = (NFLGameMatcher.selScan T (NFLGameMatcher.scoredList ratio na nh l)
            best ((bx : ℚ) / 2)).1 := by
  intro l
  induction l with
  | nil =>
    intro best bx _
    simp [NFLGameMatcher.fuzzyScan, NFLGameMatcher.scoredList, NFLGameMatcher.selScan]
  | cons c rest ih =>
    intro best bx hshadow
    cases c with
    | malformed =>
      rw [NFLGameMatcher.fuzzyScan, NFLGameMatcher.scoredList]
      exact ih best bx (fun g hg => hshadow g (List.mem_cons_of_mem _ hg))
    | game g =>
      have hrest : ∀ g' : SourceGame, Candidate.game g' ∈ rest →
          (T : ℚ) ≤ NFLGameMatcher.combinedScore ratio na nh
              (NFLGameMatcher.normalize_team_name g'.away_team)
              (NFLGameMatcher.normalize_team_name g'.home_team) →
          NFLGameMatcher.combinedScore ratio na nh
              (NFLGameMatcher.normalize_team_name g'.home_team)
              (NFLGameMatcher.normalize_team_name g'.away_team) ≤
            NFLGameMatcher.combinedScore ratio na nh
              (NFLGameMatcher.normalize_team_name g'.away_team)
              (NFLGameMatcher.normalize_team_name g'.home_team) :=
        fun g' hg' => hshadow g' (List.mem_cons_of_mem _ hg')
      rw [NFLGameMatcher.fuzzyScan, NFLGameMatcher.scoredList]
      simp only [NFLGameMatcher.selScan]
      by_cases h1 : 2 * T ≤ NFLGameMatcher.combinedScoreX2 ratio na nh
          (NFLGameMatcher.normalize_team_name g.away_team)
          (NFLGameMatcher.normalize_team_name g.home_team) ∧
          bx < NFLGameMatcher.combinedScoreX2 ratio na nh
            (NFLGameMatcher.normalize_team_name g.away_team)
            (NFLGameMatcher.normalize_team_name g.home_team)
      · have h1q : (T : ℚ) ≤ NFLGameMatcher.combinedScore ratio na nh
            (NFLGameMatcher.normalize_team_name g.away_team)
            (NFLGameMatcher.normalize_team_name g.home_team) ∧
            (bx : ℚ) / 2 < NFLGameMatcher.combinedScore ratio na nh
              (NFLGameMatcher.normalize_team_name g.away_team)
              (NFLGameMatcher.normalize_team_name g.home_team) :=
          ⟨(NFLGameMatcher.score_threshold_iff T _).mpr h1.1,
           (NFLGameMatcher.score_lt_iff bx _).mpr h1.2⟩
        rw [if_pos h1, if_pos h1q]
        have hno2 : ¬ ((T : ℚ) ≤ NFLGameMatcher.combinedScore ratio na nh
            (NFLGameMatcher.normalize_team_name g.home_team)
            (NFLGameMatcher.normalize_team_name g.away_team) ∧
            NFLGameMatcher.combinedScore ratio na nh
              (NFLGameMatcher.normalize_team_name g.away_team)
              (NFLGameMatcher.normalize_team_name g.home_team) <
            NFLGameMatcher.combinedScore ratio na nh
              (NFLGameMatcher.normalize_team_name g.home_team)
              (NFLGameMatcher.normalize_team_name g.away_team)) := by
          rintro ⟨-, hlt⟩
          exact absurd hlt (not_lt.mpr
            (hshadow g (List.mem_cons_self _ _) h1q.1))
        rw [if_neg hno2]
        exact ih (some g) _ hrest
      · have h1q : ¬ ((T : ℚ) ≤ NFLGameMatcher.combinedScore ratio na nh
            (NFLGameMatcher.normalize_team_name g.away_team)
            (NFLGameMatcher.normalize_team_name g.home_team) ∧
            (bx : ℚ) / 2 < NFLGameMatcher.combinedScore ratio na nh
              (NFLGameMatcher.normalize_team_name g.away_team)
              (NFLGameMatcher.normalize_team_name g.home_team)) := by
          rintro ⟨ha, hb⟩
          exact h1 ⟨(NFLGameMatcher.score_threshold_iff T _).mp ha,
            (NFLGameMatcher.score_lt_iff bx _).mp hb⟩
        rw [if_neg h1, if_neg h1q]
        by_cases h2 : 2 * T ≤ NFLGameMatcher.combinedScoreX2 ratio na nh
            (NFLGameMatcher.normalize_team_name g.home_team)
            (NFLGameMatcher.normalize_team_name g.away_team) ∧
            bx < NFLGameMatcher.combinedScoreX2 ratio na nh
              (NFLGameMatcher.normalize_team_name g.home_team)
              (NFLGameMatcher.normalize_team_name g.away_team)
        · have h2q : (T : ℚ) ≤ NFLGameMatcher.combinedScore ratio na nh
              (NFLGameMatcher.normalize_team_name g.home_team)
              (NFLGameMatcher.normalize_team_name g.away_team) ∧
              (bx : ℚ) / 2 < NFLGameMatcher.combinedScore ratio na nh
                (NFLGameMatcher.normalize_team_name g.home_team)
                (NFLGameMatcher.normalize_team_name g.away_team) :=
            ⟨(NFLGameMatcher.score_threshold_iff T _).mpr h2.1,
             (NFLGameMatcher.score_lt_iff bx _).mpr h2.2⟩
          rw [if_pos h2, if_pos h2q]
          exact ih (some (reverseGame g)) _ hrest
        · have h2q : ¬ ((T : ℚ) ≤ NFLGameMatcher.combinedScore ratio na nh
              (NFLGameMatcher.normalize_team_name g.home_team)
              (NFLGameMatcher.normalize_team_name g.away_team) ∧
              (bx : ℚ) / 2 < NFLGameMatcher.combinedScore ratio na nh
                (NFLGameMatcher.normalize_team_name g.home_team)
                (NFLGameMatcher.normalize_team_name g.away_team)) := by
            rintro ⟨ha, hb⟩
            exact h2 ⟨(NFLGameMatcher.score_threshold_iff T _).mp ha,
              (NFLGameMatcher.score_lt_iff bx _).mp hb⟩
          rw [if_neg h2, if_neg h2q]
          exact ih best bx hrest

/-- Characterisation of the one-test-per-entry best-so-far scan: starting
from state `(best, B)`, it returns the earliest entry achieving the maximal
score of the list whenever that maximum clears the threshold and strictly
improves on `B`, and leaves the state untouched otherwise. -/
theorem nfl_selScan_spec (T : ℕ) :
    ∀ (l : List (ℚ × SourceGame)) (best : Option SourceGame) (B M : ℚ),
      NFLGameMatcher.maxScore l = some M →
      NFLGameMatcher.selScan T l best B =
        (if (T : ℚ) ≤ M ∧ B < M then (NFLGameMatcher.firstWith M l, M)
         else (best, B)) := by
  intro l
  induction l with
  | nil => intro best B M hM; simp [NFLGameMatcher.maxScore] at hM
  | cons p rest ih =>
    rcases p with ⟨s, r⟩
    intro best B M hM
    rcases hrest : NFLGameMatcher.maxScore rest with - | M'
    · obtain rfl : rest = [] := (nfl_maxScore_eq_none_iff rest).mp hrest
      obtain rfl : s = M := by
        simpa [NFLGameMatcher.maxScore] using hM
      by_cases hsel : (T : ℚ) ≤ s ∧ B < s
      · rw [if_pos hsel]
        simp only [NFLGameMatcher.selScan, if_pos hsel, NFLGameMatcher.firstWith]
        simp
      · rw [if_neg hsel]
        simp only [NFLGameMatcher.selScan, if_neg hsel]
    · obtain rfl : max s M' = M := by
        rw [NFLGameMatcher.maxScore, hrest] at hM
        simpa using hM
      by_cases hsel : (T : ℚ) ≤ s ∧ B < s
      · have hstep : NFLGameMatcher.selScan T ((s, r) :: rest) best B
            = NFLGameMatcher.selScan T rest (some r) s := by
          simp only [NFLGameMatcher.selScan, if_pos hsel]
        rw [hstep, ih (some r) s M' hrest]
        by_cases hM' : s < M'
        · have hmax : max s M' = M' := max_eq_right hM'.le
          rw [hmax, if_pos ⟨hsel.1.trans hM'.le, hM'⟩,
            if_pos ⟨hsel.1.trans hM'.le, hsel.2.trans hM'⟩]
          simp only [NFLGameMatcher.firstWith, if_neg (ne_of_lt hM')]
        · have hmax : max s M' = s := max_eq_left (not_lt.mp hM')
          rw [hmax, if_neg (fun h : (T : ℚ) ≤ M' ∧ s < M' => hM' h.2),
            if_pos hsel]
          simp only [NFLGameMatcher.firstWith]
          simp
      · have hstep : NFLGameMatcher.selScan T ((s, r) :: rest) best B
            = NFLGameMatcher.selScan T rest best B := by
          simp only [NFLGameMatcher.selScan, if_neg hsel]
        rw [hstep, ih best B M' hrest]
        by_cases hM' : (T : ℚ) ≤ M' ∧ B < M'
        · have hsM : s < M' := by
            rcases not_and_or.mp hsel with h | h
            · exact lt_of_lt_of_le (not_le.mp h) hM'.1
            · exact lt_of_le_of_lt (not_lt.mp h) hM'.2
          have hmax : max s M' = M' := max_eq_right hsM.le
          rw [hmax, if_pos hM', if_pos hM']
          simp only [NFLGameMatcher.firstWith, if_neg (ne_of_lt hsM)]
        · have hnot : ¬ ((T : ℚ) ≤ max s M' ∧ B < max s M') := by
            rintro ⟨hTm, hBm⟩
            rcases le_or_lt M' s with hle | hlt
            · rw [max_eq_left hle] at hTm hBm
              exact hsel ⟨hTm, hBm⟩
            · rw [max_eq_right hlt.le] at hTm hBm
              exact hM' ⟨hTm, hBm⟩
          rw [if_neg hM', if_neg hnot]

/-- If no candidate matches exactly (in either orientation), the mascot exact
pass finds nothing. -/
theorem nfl_exactScan_eq_none (na nh : Str) :
    ∀ l : List Candidate,
      (∀ g : SourceGame, Candidate.game g ∈ l →
        ¬ (na = NFLGameMatcher.normalize_team_name g.away_team ∧
           nh = NFLGameMatcher.normalize_team_name g.home_team) ∧
        ¬ (na = NFLGameMatcher.normalize_team_name g.home_team ∧
           nh = NFLGameMatcher.normalize_team_name g.away_team)) →
      NFLGameMatcher.exactScan na nh l = none := by
  intro l
  induction l with
  | nil => intro _; rfl
  | cons c rest ih =>
    intro h
    cases c with
    | malformed =>
      rw [NFLGameMatcher.exactScan]
      exact ih (fun g hg => h g (List.mem_cons_of_mem _ hg))
    | game g =>
      have hg := h g (List.mem_cons_self _ _)
      rw [NFLGameMatcher.exactScan, if_neg hg.1, if_neg hg.2]
      exact ih (fun g' hg' => h g' (List.mem_cons_of_mem _ hg'))

/-- C1 (amended): on a candidate list with no exact match, the mascot fuzzy
pass returns the global best-scoring candidate over all candidates and both
orientations — earliest-found on ties — provided that maximum meets the
threshold, *under two provisos the `if`/`elif` scan forces*: the threshold is
positive (`best_score` starts at 0 and must be strictly beaten), and no
candidate's natural orientation clears the threshold while its swapped
orientation scores strictly higher (the `elif` skips the swapped comparison
whenever the natural branch fires, so such a candidate's swapped score is
never recorded — see the counterexample). -/
theorem C1_fuzzy_global_best_amended (ratio : Str → Str → ℕ) (fuzzy_threshold : ℕ)
    (away_team home_team : Str) (games_list : List Candidate)
    (hne : ∀ g : SourceGame, Candidate.game g ∈ games_list →
      ¬ (NFLGameMatcher.normalize_team_name away_team =
           NFLGameMatcher.normalize_team_name g.away_team ∧
         NFLGameMatcher.normalize_team_name home_team =
           NFLGameMatcher.normalize_team_name g.home_team) ∧
      ¬ (NFLGameMatcher.normalize_team_name away_team =
           NFLGameMatcher.normalize_team_name g.home_team ∧
         NFLGameMatcher.normalize_team_name home_team =
           NFLGameMatcher.normalize_team_name g.away_team))
    (hshadow : ∀ g : SourceGame, Candidate.game g ∈ games_list →
      (fuzzy_threshold : ℚ) ≤ NFLGameMatcher.combinedScore ratio
          (NFLGameMatcher.normalize_team_name away_team)
          (NFLGameMatcher.normalize_team_name home_team)
          (NFLGameMatcher.normalize_team_name g.away_team)
          (NFLGameMatcher.normalize_team_name g.home_team) →
      NFLGameMatcher.combinedScore ratio
          (NFLGameMatcher.normalize_team_name away_team)
          (NFLGameMatcher.normalize_team_name home_team)
          (NFLGameMatcher.normalize_team_name g.home_team)
          (NFLGameMatcher.normalize_team_name g.away_team) ≤
        NFLGameMatcher.combinedScore ratio
          (NFLGameMatcher.normalize_team_name away_team)
          (NFLGameMatcher.normalize_team_name home_team)
          (NFLGameMatcher.normalize_team_name g.away_team)
          (NFLGameMatcher.normalize_team_name g.home_team))
    (hT : 0 < fuzzy_threshold) :
    NFLGameMatcher.find_matching_game ratio fuzzy_threshold away_team home_team
        games_list
      = NFLGameMatcher.fuzzy_pass_spec ratio fuzzy_threshold
          (NFLGameMatcher.normalize_team_name away_team)
          (NFLGameMatcher.normalize_team_name home_team) games_list := by
  by_cases hnil : games_list = []
  · subst hnil
    rfl
  · have hexact := nfl_exactScan_eq_none
      (NFLGameMatcher.normalize_team_name away_team)
      (NFLGameMatcher.normalize_team_name home_team) games_list hne
    have hfind : NFLGameMatcher.find_matching_game ratio fuzzy_threshold
        away_team home_team games_list
        = NFLGameMatcher.fuzzyScan ratio fuzzy_threshold
            (NFLGameMatcher.normalize_team_name away_team)
            (NFLGameMatcher.normalize_team_name home_team) games_list none 0 := by
      simp [NFLGameMatcher.find_matching_game, hnil, hexact]
    rw [hfind,
      nfl_fuzzyScan_eq_selScan ratio fuzzy_threshold _ _ games_list none 0 hshadow]
    rcases hmax : NFLGameMatcher.maxScore
        (NFLGameMatcher.scoredList ratio
          (NFLGameMatcher.normalize_team_name away_team)
          (NFLGameMatcher.normalize_team_name home_team) games_list) with - | M
    · have hslnil := (nfl_maxScore_eq_none_iff _).mp hmax
      simp [NFLGameMatcher.selScan, NFLGameMatcher.fuzzy_pass_spec, hslnil,
        NFLGameMatcher.maxScore]
    · rw [nfl_selScan_spec fuzzy_threshold _ none _ M hmax]
      simp only [NFLGameMatcher.fuzzy_pass_spec, hmax]
      by_cases hTM : (fuzzy_threshold : ℚ) ≤ M
      · have h0M : ((0 : ℕ) : ℚ) / 2 < M := by
          have hTq : (0 : ℚ) < (fuzzy_threshold : ℚ) := by exact_mod_cast hT
          have h0 : ((0 : ℕ) : ℚ) / 2 = 0 := by norm_num
          rw [h0]
          exact lt_of_lt_of_le hTq hTM
        rw [if_pos ⟨hTM, h0M⟩, if_pos hTM]
      · rw [if_neg (fun h => hTM h.1), if_neg hTM]

/-- Witness for C1: with a constant similarity of 85 (so no swapped
orientation can exceed a threshold-clearing natural one) and threshold 80,
the code's fuzzy pass agrees with the global-best specification on a
non-exact candidate. -/
theorem C1_fuzzy_global_best_witness :
    NFLGameMatcher.find_matching_game (fun _ _ => 85) 80 "Pp".data "Qq".data
        [Candidate.game c1Game]
      = NFLGameMatcher.fuzzy_pass_spec (fun _ _ => 85) 80
          (NFLGameMatcher.normalize_team_name "Pp".data)
          (NFLGameMatcher.normalize_team_name "Qq".data)
          [Candidate.game c1Game] :=
  C1_fuzzy_global_best_amended (fun _ _ => 85) 80 "Pp".data "Qq".data
    [Candidate.game c1Game]
    (by
      intro g hg
      simp only [List.mem_singleton] at hg
      injection hg with h
      subst h
      exact ⟨by decide, by decide⟩)
    (by
      intro g hg
      simp only [List.mem_singleton] at hg
      injection hg with h
      subst h
      intro _
      exact le_refl _)
    (by decide)

/-- Counterexample to C1 as stated: with similarity table `c1Ratio`, the
single candidate's natural orientation combines to 85 (clearing threshold 80)
while its swapped orientation combines to 100 — the global maximum.  The
`elif` never evaluates the swapped orientation once the natural branch fires,
so the code returns the natural orientation, not the global best the claim
promises. -/
theorem C1_fuzzy_global_best_counterexample :
    NFLGameMatcher.find_matching_game c1Ratio 80 "Pp".data "Qq".data
        [Candidate.game c1Game] = some c1Game ∧
    NFLGameMatcher.fuzzy_pass_spec c1Ratio 80
        (NFLGameMatcher.normalize_team_name "Pp".data)
        (NFLGameMatcher.normalize_team_name "Qq".data)
        [Candidate.game c1Game] = some (reverseGame c1Game) ∧
    (some c1Game : Option SourceGame) ≠ some (reverseGame c1Game) := by
  refine ⟨by decide, ?_, by decide⟩
  have hsl : NFLGameMatcher.scoredList c1Ratio
      (NFLGameMatcher.normalize_team_name "Pp".data)
      (NFLGameMatcher.normalize_team_name "Qq".data) [Candidate.game c1Game]
      = [(((170 : ℕ) : ℚ) / 2, c1Game),
         (((200 : ℕ) : ℚ) / 2, reverseGame c1Game)] := by
    rfl
  have hmaxv : NFLGameMatcher.maxScore
      [(((170 : ℕ) : ℚ) / 2, c1Game),
       (((200 : ℕ) : ℚ) / 2, reverseGame c1Game)]
      = some (((200 : ℕ) : ℚ) / 2) := by
    simp only [NFLGameMatcher.maxScore]
    rw [max_eq_right (by norm_num : ((170 : ℕ) : ℚ) / 2 ≤ ((200 : ℕ) : ℚ) / 2)]
  have hfw : NFLGameMatcher.firstWith (((200 : ℕ) : ℚ) / 2)
      [(((170 : ℕ) : ℚ) / 2, c1Game),
       (((200 : ℕ) : ℚ) / 2, reverseGame c1Game)]
      = some (reverseGame c1Game) := by
    simp only [NFLGameMatcher.firstWith]
    rw [if_neg (by norm_num : ¬ ((170 : ℕ) : ℚ) / 2 = ((200 : ℕ) : ℚ) / 2)]
    simp
  simp only [NFLGameMatcher.fuzzy_pass_spec, hsl, hmaxv]
  rw [if_pos (by norm_num : ((80 : ℕ) : ℚ) ≤ ((200 : ℕ) : ℚ) / 2)]
  exact hfw

/-! ## Dictionary and aggregation lemmas (C2, C9) -/

theorem dictInsert_mem {β : Type} (k : String) (v : β) :
    ∀ (l : List (String × β)) (p : String × β),
      p ∈ dictInsert k v l → p = (k, v) ∨ p ∈ l := by
  intro l
  induction l with
  | nil => intro p hp; simpa [dictInsert] using hp
  | cons q rest ih =>
    rcases q with ⟨k', v'⟩
    intro p hp
    rw [dictInsert] at hp
    by_cases hk : k' = k
    · rw [if_pos hk] at hp
      rcases List.mem_cons.mp hp with h | h
      · exact Or.inl h
      · exact Or.inr (List.mem_cons_of_mem _ h)
    · rw [if_neg hk] at hp
      rcases List.mem_cons.mp hp with h | h
      · exact Or.inr (h ▸ List.mem_cons_self _ _)
      · rcases ih p h with h' | h'
        · exact Or.inl h'
        · exact Or.inr (List.mem_cons_of_mem _ h')

theorem dictInsert_keys_of_not_mem {β : Type} (k : String) (v : β) :
    ∀ l : List (String × β), k ∉ l.map Prod.fst →
      (dictInsert k v l).map Prod.fst = l.map Prod.fst ++ [k] := by
  intro l
  induction l with
  | nil => intro _; simp [dictInsert]
  | cons q rest ih =>
    rcases q with ⟨k', v'⟩
    intro hk
    simp only [List.map_cons, List.mem_cons] at hk
    push_neg at hk
    rw [dictInsert, if_neg (fun h => hk.1 h.symm)]
    simp only [List.map_cons, List.cons_append]
    rw [ih hk.2]

theorem dictGet_eq_none_iff {β : Type} (k : String) :
    ∀ l : List (String × β), dictGet k l = none ↔ k ∉ l.map Prod.fst := by
  intro l
  induction l with
  | nil => simp [dictGet]
  | cons q rest ih =>
    rcases q with ⟨k', v'⟩
    rw [dictGet]
    by_cases hk : k' = k
    · subst hk
      simp
    · rw [if_neg hk, ih]
      simp [Ne.symm hk]

theorem dictGet_map_bump (s k : String) :
    ∀ l : List (String × ℕ), k ≠ s →
      dictGet s (l.map (fun p => if p.1 = k then (p.1, p.2 + 1) else p))
        = dictGet s l := by
  intro l hk
  induction l with
  | nil => rfl
  | cons q rest ih =>
    rcases q with ⟨k', v'⟩
    simp only [List.map_cons]
    by_cases h' : k' = k
    · rw [if_pos h', dictGet, dictGet,
        if_neg (fun hs : k' = s => hk (h'.symm.trans hs)),
        if_neg (fun hs : k' = s => hk (h'.symm.trans hs))]
      exact ih
    · rw [if_neg h', dictGet, dictGet]
      by_cases hs : k' = s
      · rw [if_pos hs, if_pos hs]
      · rw [if_neg hs, if_neg hs]
        exact ih

theorem dictGet_zeros (s : String) :
    ∀ sources : List (String × List Candidate), s ∈ sources.map Prod.fst →
      dictGet s (sources.map (fun p => (p.1, 0))) = some 0 := by
  intro sources
  induction sources with
  | nil => intro h; simp at h
  | cons q rest ih =>
    rcases q with ⟨k', gl⟩
    intro hs
    simp only [List.map_cons]
    rw [dictGet]
    by_cases hk : k' = s
    · rw [if_pos hk]
    · rw [if_neg hk]
      rcases List.mem_cons.mp hs with h | h
      · exact absurd h.symm hk
      · exact ih h

theorem dictGet_append_of_none {β : Type} (k : String) :
    ∀ (l m : List (String × β)), dictGet k l = none →
      dictGet k (l ++ m) = dictGet k m := by
  intro l
  induction l with
  | nil => intro m _; rfl
  | cons q rest ih =>
    rcases q with ⟨k', v'⟩
    intro m hl
    rw [dictGet] at hl
    by_cases hk : k' = k
    · rw [if_pos hk] at hl; exact absurd hl (by simp)
    · rw [if_neg hk] at hl
      rw [List.cons_append, dictGet, if_neg hk]
      exact ih m hl

theorem processSheetGame_malformed (find : Str → Str → List Candidate → Option SourceGame)
    (norm : Str → Str) (sources : List (String × List Candidate))
    (acc : MatchSummary) :
    processSheetGame find norm sources acc SheetEntry.malformed = acc := rfl

theorem processSheetGame_ok (find : Str → Str → List Candidate → Option SourceGame)
    (norm : Str → Str) (sources : List (String × List Candidate))
    (acc : MatchSummary) (a h : Str) (r : ℤ) :
    processSheetGame find norm sources acc (SheetEntry.ok a h r)
      = { acc with
            counts := (processSources find norm a h sources [] acc.counts).2
            matched_sheets_rows :=
              dictInsert (toString r)
                { sheets_away := norm a, sheets_home := norm h,
                  per_source := (processSources find norm a h sources [] acc.counts).1 }
                acc.matched_sheets_rows } := rfl

theorem processSources_keys (find : Str → Str → List Candidate → Option SourceGame)
    (norm : Str → Str) (a h : Str) :
    ∀ (srcs : List (String × List Candidate)) (ps : List (String × SourceGame))
      (counts : List (String × ℕ)),
      ∃ ex : List String,
        ((processSources find norm a h srcs ps counts).1).map Prod.fst
          = ps.map Prod.fst ++ ex ∧ ex.Sublist (srcs.map Prod.fst) := by
  intro srcs
  induction srcs with
  | nil =>
    intro ps counts
    exact ⟨[], by simp [processSources], by simp⟩
  | cons q rest ih =>
    rcases q with ⟨name, gl⟩
    intro ps counts
    rw [processSources]
    rcases hfind : find a h gl with - | m
    · obtain ⟨ex, hk, hsub⟩ := ih ps counts
      exact ⟨ex, hk, hsub.cons _⟩
    · obtain ⟨ex, hk, hsub⟩ := ih
        (ps ++ [(name, { m with away_team := norm m.away_team,
                                home_team := norm m.home_team })])
        (counts.map (fun p => if p.1 = name then (p.1, p.2 + 1) else p))
      refine ⟨name :: ex, ?_, hsub.cons₂ _⟩
      rw [hk]
      simp

theorem processSources_counts (find : Str → Str → List Candidate → Option SourceGame)
    (norm : Str → Str) (a h : Str) (s : String)
    (hf : ∀ a' h', find a' h' [] = none) :
    ∀ (srcs : List (String × List Candidate)) (ps : List (String × SourceGame))
      (counts : List (String × ℕ)),
      (∀ p ∈ srcs, p.1 = s → p.2 = ([] : List Candidate)) →
      dictGet s (processSources find norm a h srcs ps counts).2
        = dictGet s counts := by
  intro srcs
  induction srcs with
  | nil => intro ps counts _; rfl
  | cons q rest ih =>
    rcases q with ⟨name, gl⟩
    intro ps counts hse
    rw [processSources]
    rcases hfind : find a h gl with - | m
    · exact ih ps counts (fun p hp => hse p (List.mem_cons_of_mem _ hp))
    · have hname : name ≠ s := by
        intro hns
        have : gl = [] := hse (name, gl) (List.mem_cons_self _ _) hns
        rw [this, hf a h] at hfind
        exact Option.noConfusion hfind
      rw [ih _ _ (fun p hp => hse p (List.mem_cons_of_mem _ hp)),
        dictGet_map_bump s name counts hname]

theorem processSources_ps_none (find : Str → Str → List Candidate → Option SourceGame)
    (norm : Str → Str) (a h : Str) (s : String)
    (hf : ∀ a' h', find a' h' [] = none) :
    ∀ (srcs : List (String × List Candidate)) (ps : List (String × SourceGame))
      (counts : List (String × ℕ)),
      (∀ p ∈ srcs, p.1 = s → p.2 = ([] : List Candidate)) →
      dictGet s ps = none →
      dictGet s (processSources find norm a h srcs ps counts).1 = none := by
  intro srcs
  induction srcs with
  | nil => intro ps counts _ hps; exact hps
  | cons q rest ih =>
    rcases q with ⟨name, gl⟩
    intro ps counts hse hps
    rw [processSources]
    rcases hfind : find a h gl with - | m
    · exact ih ps counts (fun p hp => hse p (List.mem_cons_of_mem _ hp)) hps
    · have hname : name ≠ s := by
        intro hns
        have : gl = [] := hse (name, gl) (List.mem_cons_self _ _) hns
        rw [this, hf a h] at hfind
        exact Option.noConfusion hfind
      apply ih _ _ (fun p hp => hse p (List.mem_cons_of_mem _ hp))
      rw [dictGet_append_of_none s ps _ hps, dictGet, if_neg hname]
      rfl

theorem foldl_sheets_total (find : Str → Str → List Candidate → Option SourceGame)
    (norm : Str → Str) (sources : List (String × List Candidate)) :
    ∀ (games : List SheetEntry) (acc : MatchSummary),
      (games.foldl (processSheetGame find norm sources) acc).sheets_total
        = acc.sheets_total := by
  intro games
  induction games with
  | nil => intro acc; rfl
  | cons e rest ih =>
    intro acc
    rw [List.foldl_cons]
    cases e with
    | malformed => rw [processSheetGame_malformed]; exact ih acc
    | ok a h r => rw [processSheetGame_ok]; exact ih _

theorem foldl_rows_keys (find : Str → Str → List Candidate → Option SourceGame)
    (norm : Str → Str) (sources : List (String × List Candidate)) :
    ∀ (games : List SheetEntry) (acc : MatchSummary),
      (∀ e ∈ games, e ≠ SheetEntry.malformed) →
      (games.map sheetRowKey).Nodup →
      (∀ kk ∈ games.map sheetRowKey,
        kk ∉ acc.matched_sheets_rows.map Prod.fst) →
      (games.foldl (processSheetGame find norm sources)
          acc).matched_sheets_rows.map Prod.fst
        = acc.matched_sheets_rows.map Prod.fst ++ games.map sheetRowKey := by
  intro games
  induction games with
  | nil => intro acc _ _ _; simp
  | cons e rest ih =>
    intro acc hwf hnd hdisj
    cases e with
    | malformed => exact absurd rfl (hwf SheetEntry.malformed (List.mem_cons_self _ _))
    | ok a h r =>
      rw [List.foldl_cons, processSheetGame_ok]
      have hkey : toString r ∉ acc.matched_sheets_rows.map Prod.fst :=
        hdisj (toString r) (by simp [sheetRowKey])
      have hkeys := dictInsert_keys_of_not_mem (toString r)
        { sheets_away := norm a, sheets_home := norm h,
          per_source := (processSources find norm a h sources [] acc.counts).1 }
        acc.matched_sheets_rows hkey
      have hnd' : (rest.map sheetRowKey).Nodup := by
        simpa [sheetRowKey] using hnd.of_cons
      have hknot : toString r ∉ rest.map sheetRowKey := by
        have := hnd
        simp only [List.map_cons, sheetRowKey, List.nodup_cons] at this
        exact this.1
      have hdisj' : ∀ kk ∈ rest.map sheetRowKey,
          kk ∉ (dictInsert (toString r)
            { sheets_away := norm a, sheets_home := norm h,
              per_source := (processSources find norm a h sources [] acc.counts).1 }
            acc.matched_sheets_rows).map Prod.fst := by
        intro kk hkk
        rw [hkeys]
        intro hmem
        rcases List.mem_append.mp hmem with hin | hin
        · exact hdisj kk (List.mem_cons_of_mem _ hkk) hin
        · rcases List.mem_singleton.mp hin with rfl
          exact hknot hkk
      rw [ih _ (fun e' he' => hwf e' (List.mem_cons_of_mem _ he')) hnd' hdisj']
      rw [hkeys]
      simp [sheetRowKey]

theorem foldl_counts (find : Str → Str → List Candidate → Option SourceGame)
    (norm : Str → Str) (sources : List (String × List Candidate)) (s : String)
    (hf : ∀ a' h', find a' h' [] = none)
    (hse : ∀ p ∈ sources, p.1 = s → p.2 = ([] : List Candidate)) :
    ∀ (games : List SheetEntry) (acc : MatchSummary),
      dictGet s (games.foldl (processSheetGame find norm sources) acc).counts
        = dictGet s acc.counts := by
  intro games
  induction games with
  | nil => intro acc; rfl
  | cons e rest ih =>
    intro acc
    rw [List.foldl_cons]
    cases e with
    | malformed => rw [processSheetGame_malformed]; exact ih acc
    | ok a h r =>
      rw [processSheetGame_ok, ih]
      exact processSources_counts find norm a h s hf sources [] acc.counts hse

theorem foldl_ps_none (find : Str → Str → List Candidate → Option SourceGame)
    (norm : Str → Str) (sources : List (String × List Candidate)) (s : String)
    (hf : ∀ a' h', find a' h' [] = none)
    (hse : ∀ p ∈ sources, p.1 = s → p.2 = ([] : List Candidate)) :
    ∀ (games : List SheetEntry) (acc : MatchSummary),
      (∀ p ∈ acc.matched_sheets_rows, dictGet s p.2.per_source = none) →
      ∀ p ∈ (games.foldl (processSheetGame find norm sources)
          acc).matched_sheets_rows,
        dictGet s p.2.per_source = none := by
  intro games
  induction games with
  | nil => intro acc hacc; exact hacc
  | cons e rest ih =>
    intro acc hacc
    rw [List.foldl_cons]
    cases e with
    | malformed => rw [processSheetGame_malformed]; exact ih acc hacc
    | ok a h r =>
      rw [processSheetGame_ok]
      apply ih
      intro p hp
      rcases dictInsert_mem (toString r) _ acc.matched_sheets_rows p hp with
        heq | hmem
      · subst heq
        exact processSources_ps_none find norm a h s hf sources [] acc.counts
          hse rfl
      · exact hacc p hmem

theorem foldl_ps_nodup (find : Str → Str → List Candidate → Option SourceGame)
    (norm : Str → Str) (sources : List (String × List Candidate))
    (hnd : (sources.map Prod.fst).Nodup) :
    ∀ (games : List SheetEntry) (acc : MatchSummary),
      (∀ p ∈ acc.matched_sheets_rows, (p.2.per_source.map Prod.fst).Nodup) →
      ∀ p ∈ (games.foldl (processSheetGame find norm sources)
          acc).matched_sheets_rows,
        (p.2.per_source.map Prod.fst).Nodup := by
  intro games
  induction games with
  | nil => intro acc hacc; exact hacc
  | cons e rest ih =>
    intro acc hacc
    rw [List.foldl_cons]
    cases e with
    | malformed => rw [processSheetGame_malformed]; exact ih acc hacc
    | ok a h r =>
      rw [processSheetGame_ok]
      apply ih
      intro p hp
      rcases dictInsert_mem (toString r) _ acc.matched_sheets_rows p hp with
        heq | hmem
      · subst heq
        obtain ⟨ex, hk, hsub⟩ := processSources_keys find norm a h sources []
          acc.counts
        simp only [List.map_nil, List.nil_append] at hk
        show (((processSources find norm a h sources [] acc.counts).1).map
          Prod.fst).Nodup
        rw [hk]
        exact hsub.nodup hnd
      · exact hacc p hmem

theorem matchGamesCore_ps_nodup (find : Str → Str → List Candidate → Option SourceGame)
    (norm : Str → Str) (sheets_data : SheetsData)
    (sources : List (String × List Candidate)) (summary : MatchSummary)
    (hnd : (sources.map Prod.fst).Nodup) :
    matchGamesCore find norm sheets_data sources = some summary →
    ∀ p ∈ summary.matched_sheets_rows, (p.2.per_source.map Prod.fst).Nodup := by
  intro hcore
  cases sheets_data with
  | falsy => exact Option.noConfusion hcore
  | nonMapping => exact Option.noConfusion hcore
  | dict gf =>
    cases gf with
    | noGames => exact Option.noConfusion hcore
    | notList => exact Option.noConfusion hcore
    | list games =>
      rw [matchGamesCore] at hcore
      obtain rfl : _ = summary := Option.some.inj hcore
      exact foldl_ps_nodup find norm sources hnd games _ (by simp)

theorem matchGamesCore_missing_source
    (find : Str → Str → List Candidate → Option SourceGame) (norm : Str → Str)
    (games : List SheetEntry) (sources : List (String × List Candidate))
    (s : String)
    (hf : ∀ a' h', find a' h' [] = none)
    (hwf : ∀ e ∈ games, e ≠ SheetEntry.malformed)
    (hnd : (games.map sheetRowKey).Nodup)
    (hs : (s, ([] : List Candidate)) ∈ sources)
    (hse : ∀ p ∈ sources, p.1 = s → p.2 = ([] : List Candidate)) :
    ∃ summary : MatchSummary,
      matchGamesCore find norm (SheetsData.dict (GamesField.list games)) sources
        = some summary ∧
      summary.sheets_total = games.length ∧
      summary.matched_sheets_rows.length = games.length ∧
      dictGet s summary.counts = some 0 ∧
      ∀ p ∈ summary.matched_sheets_rows, dictGet s p.2.per_source = none := by
  refine ⟨games.foldl (processSheetGame find norm sources)
    { sheets_total := games.length
      counts := sources.map (fun p => (p.1, 0))
      matched_sheets_rows := [] }, rfl, ?_, ?_, ?_, ?_⟩
  · rw [foldl_sheets_total]
  · have hkeys := foldl_rows_keys find norm sources games
      { sheets_total := games.length
        counts := sources.map (fun p => (p.1, 0))
        matched_sheets_rows := [] }
      hwf hnd (by simp)
    have := congrArg List.length hkeys
    simpa using this
  · rw [foldl_counts find norm sources s hf hse]
    exact dictGet_zeros s sources (List.mem_map.mpr ⟨(s, []), hs, rfl⟩)
  · exact foldl_ps_none find norm sources s hf hse games _ (by simp)

/-- C2 (amended): within a single run, every `MatchedGame` holds at most one
record per source — its `per_source` keys are pairwise distinct whenever the
configured source names are (they are a fixed dict in the code).  The other
half of the claim is false: the same source record *can* be attached to two
different canonical games, because candidates are never consumed across
canonical games (see the counterexample). -/
theorem C2_at_most_one_per_source_amended (token_set_ratio ratio : Str → Str → ℕ)
    (gm_threshold nfl_threshold : ℕ) (sheets_data : SheetsData)
    (sources : List (String × List Candidate)) (summary : MatchSummary)
    (hnd : (sources.map Prod.fst).Nodup) :
    (GameMatcher.match_games token_set_ratio gm_threshold sheets_data sources
        = some summary →
      ∀ p ∈ summary.matched_sheets_rows, (p.2.per_source.map Prod.fst).Nodup) ∧
    (NFLGameMatcher.match_games ratio nfl_threshold sheets_data sources
        = some summary →
      ∀ p ∈ summary.matched_sheets_rows, (p.2.per_source.map Prod.fst).Nodup) :=
  ⟨fun hc => matchGamesCore_ps_nodup _ _ sheets_data sources summary hnd hc,
   fun hc => matchGamesCore_ps_nodup _ _ sheets_data sources summary hnd hc⟩

/-- Counterexample to C2 as stated: canonical rows 1 and 2 both name the pair
(A, B); the single `dimers` record is attached to *both* canonical games (and
counted twice) — candidates are not consumed, so a source record can serve
two different canonical games in one run. -/
theorem C2_counterexample :
    GameMatcher.match_games (fun _ _ => 0) 85 c2Sheets
        [("dimers", [Candidate.game c2Candidate])]
      = some { sheets_total := 2, counts := [("dimers", 2)],
               matched_sheets_rows := [("1", c2Matched), ("2", c2Matched)] } ∧
    ("1" : String) ≠ "2" :=
  ⟨by decide, by decide⟩

/-- Witness for C2 (amended): the per-source keys of the row-1 `MatchedGame`
of the concrete C2 run are pairwise distinct. -/
theorem C2_at_most_one_per_source_witness :
    (c2Matched.per_source.map Prod.fst).Nodup :=
  (C2_at_most_one_per_source_amended (fun _ _ => 0) (fun _ _ => 0) 85 80
      c2Sheets [("dimers", [Candidate.game c2Candidate])]
      { sheets_total := 2, counts := [("dimers", 2)],
        matched_sheets_rows := [("1", c2Matched), ("2", c2Matched)] }
      (by decide)).1 (by decide) ("1", c2Matched) (by decide)

/-- C9: for a well-formed canonical list (all entries carry the required keys
and row keys are distinct — `row_number` is the stable identity key) and a
source `s` whose candidate list is empty (e.g. its file was absent), both
aggregators produce a summary whose `matched_sheets_rows` has exactly one
entry per canonical game, whose counter for `s` is `0`, and none of whose
`MatchedGame`s contains a key for `s` — unmatched sources are an absent key,
never a null value. -/
theorem C9_missing_source_zeroes (token_set_ratio ratio : Str → Str → ℕ)
    (gm_threshold nfl_threshold : ℕ) (games : List SheetEntry)
    (sources : List (String × List Candidate)) (s : String)
    (hwf : ∀ e ∈ games, e ≠ SheetEntry.malformed)
    (hnd : (games.map sheetRowKey).Nodup)
    (hs : (s, ([] : List Candidate)) ∈ sources)
    (hse : ∀ p ∈ sources, p.1 = s → p.2 = ([] : List Candidate)) :
    (∃ summary : MatchSummary,
      GameMatcher.match_games token_set_ratio gm_threshold
          (SheetsData.dict (GamesField.list games)) sources = some summary ∧
      summary.sheets_total = games.length ∧
      summary.matched_sheets_rows.length = games.length ∧
      dictGet s summary.counts = some 0 ∧
      ∀ p ∈ summary.matched_sheets_rows, dictGet s p.2.per_source = none) ∧
    (∃ summary : MatchSummary,
      NFLGameMatcher.match_games ratio nfl_threshold
          (SheetsData.dict (GamesField.list games)) sources = some summary ∧
      summary.sheets_total = games.length ∧
      summary.matched_sheets_rows.length = games.length ∧
      dictGet s summary.counts = some 0 ∧
      ∀ p ∈ summary.matched_sheets_rows, dictGet s p.2.per_source = none) :=
  ⟨matchGamesCore_missing_source _ _ games sources s (fun _ _ => rfl) hwf hnd
    hs hse,
   matchGamesCore_missing_source _ _ games sources s (fun _ _ => rfl) hwf hnd
    hs hse⟩

/-- Witness for C9: two well-formed canonical games, an `espn` source with an
empty list next to a `dimers` source with one candidate. -/
theorem C9_missing_source_zeroes_witness :
    (∃ summary : MatchSummary,
      GameMatcher.match_games (fun _ _ => 0) 85
          (SheetsData.dict (GamesField.list
            [SheetEntry.ok "A".data "B".data 1,
             SheetEntry.ok "C".data "D".data 2]))
          [("espn", []), ("dimers", [Candidate.game c2Candidate])]
        = some summary ∧
      summary.sheets_total = 2 ∧
      summary.matched_sheets_rows.length = 2 ∧
      dictGet "espn" summary.counts = some 0 ∧
      ∀ p ∈ summary.matched_sheets_rows,
        dictGet "espn" p.2.per_source = none) ∧
    (∃ summary : MatchSummary,
      NFLGameMatcher.match_games (fun _ _ => 0) 80
          (SheetsData.dict (GamesField.list
            [SheetEntry.ok "A".data "B".data 1,
             SheetEntry.ok "C".data "D".data 2]))
          [("espn", []), ("dimers", [Candidate.game c2Candidate])]
        = some summary ∧
      summary.sheets_total = 2 ∧
      summary.matched_sheets_rows.length = 2 ∧
      dictGet "espn" summary.counts = some 0 ∧
      ∀ p ∈ summary.matched_sheets_rows,
        dictGet "espn" p.2.per_source = none) :=
  C9_missing_source_zeroes (fun _ _ => 0) (fun _ _ => 0) 85 80
    [SheetEntry.ok "A".data "B".data 1, SheetEntry.ok "C".data "D".data 2]
    [("espn", []), ("dimers", [Candidate.game c2Candidate])] "espn"
    (by decide) (by decide) (by decide) (by decide)

/-! ## Normalizer idempotence (C6): character and string lemmas -/

theorem lowerChar_eq_or (c : Char) :
    lowerChar c = c ∨ (c ∈ upperChars ∧ lowerChar c ∈ lowerChars) := by
  by_cases h1 : c = 'A'
  · subst h1; right; decide
  by_cases h2 : c = 'B'
  · subst h2; right; decide
  by_cases h3 : c = 'C'
  · subst h3; right; decide
  by_cases h4 : c = 'D'
  · subst h4; right; decide
  by_cases h5 : c = 'E'
  · subst h5; right; decide
  by_cases h6 : c = 'F'
  · subst h6; right; decide
  by_cases h7 : c = 'G'
  · subst h7; right; decide
  by_cases h8 : c = 'H'
  · subst h8; right; decide
  by_cases h9 : c = 'I'
  · subst h9; right; decide
  by_cases h10 : c = 'J'
  · subst h10; right; decide
  by_cases h11 : c = 'K'
  · subst h11; right; decide
  by_cases h12 : c = 'L'
  · subst h12; right; decide
  by_cases h13 : c = 'M'
  · subst h13; right; decide
  by_cases h14 : c = 'N'
  · subst h14; right; decide
  by_cases h15 : c = 'O'
  · subst h15; right; decide
  by_cases h16 : c = 'P'
  · subst h16; right; decide
  by_cases h17 : c = 'Q'
  · subst h17; right; decide
  by_cases h18 : c = 'R'
  · subst h18; right; decide
  by_cases h19 : c = 'S'
  · subst h19; right; decide
  by_cases h20 : c = 'T'
  · subst h20; right; decide
  by_cases h21 : c = 'U'
  · subst h21; right; decide
  by_cases h22 : c = 'V'
  · subst h22; right; decide
  by_cases h23 : c = 'W'
  · subst h23; right; decide
  by_cases h24 : c = 'X'
  · subst h24; right; decide
  by_cases h25 : c = 'Y'
  · subst h25; right; decide
  by_cases h26 : c = 'Z'
  · subst h26; right; decide
  left
  unfold lowerChar
  rw [if_neg h1, if_neg h2, if_neg h3, if_neg h4, if_neg h5, if_neg h6, if_neg h7, if_neg h8, if_neg h9, if_neg h10, if_neg h11, if_neg h12, if_neg h13, if_neg h14, if_neg h15, if_neg h16, if_neg h17, if_neg h18, if_neg h19, if_neg h20, if_neg h21, if_neg h22, if_neg h23, if_neg h24, if_neg h25, if_neg h26]

theorem lowerChar_mem_fix : ∀ d ∈ lowerChars, lowerChar d = d := by decide

theorem upperChars_not_ws : ∀ d ∈ upperChars, isWs d = false := by decide

theorem lowerChars_not_ws : ∀ d ∈ lowerChars, isWs d = false := by decide

theorem upperChars_ne_space : ∀ d ∈ upperChars, d ≠ ' ' := by decide

theorem lowerChars_ne_space : ∀ d ∈ lowerChars, d ≠ ' ' := by decide

theorem lowerChar_idem (c : Char) : lowerChar (lowerChar c) = lowerChar c := by
  rcases lowerChar_eq_or c with h | ⟨-, h⟩
  · rw [h]
    exact h
  · exact lowerChar_mem_fix _ h

theorem isWs_lowerChar (c : Char) : isWs (lowerChar c) = isWs c := by
  rcases lowerChar_eq_or c with h | ⟨hu, hl⟩
  · rw [h]
  · rw [lowerChars_not_ws _ hl, upperChars_not_ws _ hu]

theorem lowerChar_eq_space_iff (c : Char) : lowerChar c = ' ' ↔ c = ' ' := by
  rcases lowerChar_eq_or c with h | ⟨hu, hl⟩
  · rw [h]
  · constructor
    · intro hsp; exact absurd hsp (lowerChars_ne_space _ hl)
    · intro hsp; exact absurd hsp (upperChars_ne_space _ hu)

theorem pyLower_nil : pyLower [] = [] := rfl

theorem pyLower_cons (c : Char) (s : Str) :
    pyLower (c :: s) = lowerChar c :: pyLower s := rfl

theorem pyLower_pyLower (s : Str) : pyLower (pyLower s) = pyLower s := by
  unfold pyLower
  rw [List.map_map, show lowerChar ∘ lowerChar = lowerChar from funext lowerChar_idem]

theorem isWs_comp_lowerChar : isWs ∘ lowerChar = isWs := funext isWs_lowerChar

theorem lstrip_pyLower (s : Str) : lstrip (pyLower s) = pyLower (lstrip s) := by
  unfold lstrip pyLower
  rw [List.dropWhile_map, isWs_comp_lowerChar]

theorem pyLower_reverse (s : Str) : pyLower s.reverse = (pyLower s).reverse := by
  unfold pyLower
  exact (List.map_reverse lowerChar s)

theorem rstrip_pyLower (s : Str) : rstrip (pyLower s) = pyLower (rstrip s) := by
  unfold rstrip
  rw [← pyLower_reverse]
  unfold pyLower
  rw [List.dropWhile_map, isWs_comp_lowerChar, List.map_reverse]

theorem pyStrip_pyLower (s : Str) : pyStrip (pyLower s) = pyLower (pyStrip s) := by
  unfold pyStrip
  rw [lstrip_pyLower, rstrip_pyLower]

theorem dropWhile_isWs_idem (l : Str) :
    (l.dropWhile isWs).dropWhile isWs = l.dropWhile isWs := by
  induction l with
  | nil => rfl
  | cons c cs ih =>
    rw [List.dropWhile_cons]
    by_cases h : isWs c = true
    · rw [if_pos h]; exact ih
    · rw [if_neg h, List.dropWhile_cons, if_neg h]

theorem lstrip_lstrip (s : Str) : lstrip (lstrip s) = lstrip s :=
  dropWhile_isWs_idem s

theorem rstrip_rstrip (s : Str) : rstrip (rstrip s) = rstrip s := by
  unfold rstrip
  rw [List.reverse_reverse, dropWhile_isWs_idem]

theorem lstrip_head (s : Str) :
    ∀ c : Char, (lstrip s).head? = some c → isWs c = false := by
  induction s with
  | nil => intro c hc; simp [lstrip] at hc
  | cons d cs ih =>
    intro c hc
    rw [lstrip, List.dropWhile_cons] at hc
    by_cases h : isWs d = true
    · rw [if_pos h] at hc
      exact ih c hc
    · rw [if_neg h] at hc
      obtain rfl : d = c := by simpa using hc
      simpa using h

theorem lstrip_eq_self (s : Str)
    (h : ∀ c : Char, s.head? = some c → isWs c = false) : lstrip s = s := by
  cases s with
  | nil => rfl
  | cons c cs =>
    rw [lstrip, List.dropWhile_cons, if_neg]
    simpa using h c rfl

theorem rstrip_isPrefix (s : Str) : rstrip s <+: s := by
  have hsuf : (rstrip s).reverse <:+ s.reverse := by
    rw [rstrip, List.reverse_reverse]
    exact List.dropWhile_suffix isWs
  exact List.reverse_suffix.mp hsuf

theorem head?_of_isPrefix {l s : Str} (h : l <+: s) :
    l = [] ∨ l.head? = s.head? := by
  obtain ⟨t, rfl⟩ := h
  cases l with
  | nil => exact Or.inl rfl
  | cons c cs => exact Or.inr (by simp)

theorem pyStrip_pyStrip (s : Str) : pyStrip (pyStrip s) = pyStrip s := by
  unfold pyStrip
  have h1 : lstrip (rstrip (lstrip s)) = rstrip (lstrip s) := by
    apply lstrip_eq_self
    intro c hc
    rcases head?_of_isPrefix (rstrip_isPrefix (lstrip s)) with hnil | hh
    · rw [hnil] at hc
      simp at hc
    · rw [hh] at hc
      exact lstrip_head s c hc
  rw [h1, rstrip_rstrip]

theorem pyStrip_of_pyStrip (s : Str) : pyStrip (pyStrip s) = pyStrip s :=
  pyStrip_pyStrip s

theorem mem_of_mem_lstrip {c : Char} {s : Str} (h : c ∈ lstrip s) : c ∈ s :=
  (List.dropWhile_sublist isWs).subset h

theorem mem_of_mem_rstrip {c : Char} {s : Str} (h : c ∈ rstrip s) : c ∈ s := by
  rw [rstrip, List.mem_reverse] at h
  have := (List.dropWhile_sublist isWs).subset h
  rwa [List.mem_reverse] at this

theorem mem_of_mem_pyStrip {c : Char} {s : Str} (h : c ∈ pyStrip s) : c ∈ s :=
  mem_of_mem_lstrip (mem_of_mem_rstrip h)

theorem space_mem_pyLower (s : Str) : ' ' ∈ pyLower s ↔ ' ' ∈ s := by
  unfold pyLower
  rw [List.mem_map]
  constructor
  · rintro ⟨c, hc, he⟩
    rwa [(lowerChar_eq_space_iff c).mp he] at hc
  · intro h
    exact ⟨' ', h, by decide⟩

theorem splitWsAux_pyLower :
    ∀ s cur : Str,
      splitWsAux (pyLower cur) (pyLower s) = (splitWsAux cur s).map pyLower := by
  intro s
  induction s with
  | nil =>
    intro cur
    rw [pyLower_nil]
    simp only [splitWsAux]
    by_cases hcur : cur = []
    · subst hcur
      simp [pyLower]
    · rw [if_neg hcur, if_neg (show ¬ pyLower cur = [] from fun h => hcur (List.map_eq_nil_iff.mp h))]
      simp [pyLower_reverse]
  | cons c cs ih =>
    intro cur
    rw [pyLower_cons]
    simp only [splitWsAux]
    rw [isWs_lowerChar]
    by_cases hws : isWs c = true
    · rw [if_pos hws, if_pos hws]
      have hnil := ih []
      rw [pyLower_nil] at hnil
      by_cases hcur : cur = []
      · subst hcur
        rw [if_pos (show pyLower [] = [] from rfl), if_pos rfl]
        exact hnil
      · rw [if_neg (show ¬ pyLower cur = [] from fun h => hcur (List.map_eq_nil_iff.mp h)), if_neg hcur,
          List.map_cons, pyLower_reverse, hnil]
    · rw [if_neg hws, if_neg hws]
      have h := ih (c :: cur)
      rw [pyLower_cons] at h
      exact h

theorem splitWs_pyLower (s : Str) :
    splitWs (pyLower s) = (splitWs s).map pyLower := by
  unfold splitWs
  have h := splitWsAux_pyLower s []
  rw [pyLower_nil] at h
  exact h

theorem splitWsAux_no_ws :
    ∀ s cur : Str, (∀ c ∈ cur, isWs c = false) →
      ∀ t ∈ splitWsAux cur s, ∀ c ∈ t, isWs c = false := by
  intro s
  induction s with
  | nil =>
    intro cur hcur t ht
    simp only [splitWsAux] at ht
    by_cases hc : cur = []
    · rw [if_pos hc] at ht
      simp at ht
    · rw [if_neg hc] at ht
      obtain rfl : t = cur.reverse := by simpa using ht
      intro c hc'
      exact hcur c (List.mem_reverse.mp hc')
  | cons d cs ih =>
    intro cur hcur t ht
    simp only [splitWsAux] at ht
    by_cases hws : isWs d = true
    · rw [if_pos hws] at ht
      by_cases hc : cur = []
      · rw [if_pos hc] at ht
        exact ih [] (by simp) t ht
      · rw [if_neg hc] at ht
        rcases List.mem_cons.mp ht with rfl | ht'
        · intro c hc'
          exact hcur c (List.mem_reverse.mp hc')
        · exact ih [] (by simp) t ht'
    · rw [if_neg hws] at ht
      refine ih (d :: cur) ?_ t ht
      intro c hc'
      rcases List.mem_cons.mp hc' with rfl | hc''
      · simpa using hws
      · exact hcur c hc''

theorem splitWs_no_ws (s : Str) :
    ∀ t ∈ splitWs s, ∀ c ∈ t, isWs c = false :=
  splitWsAux_no_ws s [] (by simp)

theorem getLastD_map_of_ne_nil {α β : Type} (f : α → β) :
    ∀ (l : List α), l ≠ [] → ∀ (d : β) (d' : α),
      (l.map f).getLastD d = f (l.getLastD d') := by
  intro l
  induction l with
  | nil => intro h; exact absurd rfl h
  | cons a rest ih =>
    intro _ d d'
    cases rest with
    | nil => rfl
    | cons b rest' =>
      rw [List.map_cons, List.getLastD_cons, List.getLastD_cons]
      exact ih (by simp) (f a) a

theorem getLastD_mem {α : Type} :
    ∀ (l : List α) (d : α), l ≠ [] → l.getLastD d ∈ l := by
  intro l
  induction l with
  | nil => intro d h; exact absurd rfl h
  | cons a rest ih =>
    intro d _
    cases rest with
    | nil => simp
    | cons b rest' =>
      rw [List.getLastD_cons]
      exact List.mem_cons_of_mem _ (ih a (by simp))

theorem nfl_normalize_expand (x : Str) :
    NFLGameMatcher.normalize_team_name x
      = if x = [] then x else pyStrip (pyLower (nflCollapse (pyStrip x))) := rfl

theorem nfl_norm_output_stable (t : Str) :
    pyStrip (pyLower (pyStrip (pyLower t))) = pyStrip (pyLower t) := by
  rw [← pyStrip_pyLower (pyLower t), pyLower_pyLower, pyStrip_pyStrip]

theorem nfl_normalize_fix_token (t : Str) (hws : ∀ c ∈ t, isWs c = false) :
    NFLGameMatcher.normalize_team_name (pyStrip (pyLower t))
      = pyStrip (pyLower t) := by
  by_cases hy : pyStrip (pyLower t) = []
  · rw [hy]
    rfl
  · have hsp : ' ' ∉ pyStrip (pyLower t) := by
      intro hmem
      have h1 : ' ' ∈ pyLower t := mem_of_mem_pyStrip hmem
      have h2 : ' ' ∈ t := (space_mem_pyLower t).mp h1
      have := hws ' ' h2
      simp [isWs] at this
    rw [nfl_normalize_expand, if_neg hy, pyStrip_pyStrip]
    have hcol : nflCollapse (pyStrip (pyLower t)) = pyStrip (pyLower t) := by
      simp only [nflCollapse]
      rw [if_neg hsp]
    rw [hcol, nfl_norm_output_stable]

theorem nfl_normalize_fix_noncollapse (w : Str) (hst : pyStrip w = w)
    (hcol : nflCollapse w = w) :
    NFLGameMatcher.normalize_team_name (pyStrip (pyLower w))
      = pyStrip (pyLower w) := by
  have hy : pyStrip (pyLower w) = pyLower w := by
    rw [pyStrip_pyLower, hst]
  by_cases hnil : pyStrip (pyLower w) = []
  · rw [hnil]
    rfl
  · rw [nfl_normalize_expand, if_neg hnil, pyStrip_pyStrip, hy]
    suffices hc : nflCollapse (pyLower w) = pyLower w by
      rw [hc, pyLower_pyLower, hy]
    simp only [nflCollapse]
    by_cases hsp : ' ' ∈ pyLower w
    · rw [if_pos hsp]
      have hspw : ' ' ∈ w := (space_mem_pyLower w).mp hsp
      rw [splitWs_pyLower, List.length_map]
      by_cases hlen : 1 < (splitWs w).length
      · rw [if_pos hlen]
        have hpne : splitWs w ≠ [] := by
          intro h
          rw [h] at hlen
          simp at hlen
        rw [getLastD_map_of_ne_nil pyLower (splitWs w) hpne [] []]
        simp only [pyLower_pyLower]
        by_cases hta : NFLGameMatcher.nfl_teams.any
            (fun team => pyLower team = pyLower ((splitWs w).getLastD [])) = true
        · exfalso
          have hwlast : nflCollapse w = (splitWs w).getLastD [] := by
            simp only [nflCollapse]
            rw [if_pos hspw, if_pos hlen, if_pos hta]
          have hw : w = (splitWs w).getLastD [] := hcol.symm.trans hwlast
          have hmem := getLastD_mem (splitWs w) [] hpne
          have hsmem : ' ' ∈ (splitWs w).getLastD [] := by
            rw [← hw]
            exact hspw
          have := splitWs_no_ws w _ hmem ' ' hsmem
          simp [isWs] at this
        · rw [if_neg hta]
      · rw [if_neg hlen]
    · rw [if_neg hsp]

theorem nflCollapse_cases (n : Str) :
    nflCollapse n = n ∨ nflCollapse n ∈ splitWs n := by
  simp only [nflCollapse]
  by_cases h1 : ' ' ∈ n
  · rw [if_pos h1]
    by_cases h2 : 1 < (splitWs n).length
    · rw [if_pos h2]
      by_cases h3 : NFLGameMatcher.nfl_teams.any
          (fun team => pyLower team = pyLower ((splitWs n).getLastD [])) = true
      · rw [if_pos h3]
        right
        refine getLastD_mem _ _ ?_
        intro h
        rw [h] at h2
        simp at h2
      · rw [if_neg h3]
        left
        rfl
    · rw [if_neg h2]
      left
      rfl
  · rw [if_neg h1]
    left
    rfl

/-- C6 (amended): the mascot (NFL) normalizer is idempotent on every input
string.  The institutional normalizer is not idempotent in general — its
campus-keyword elimination is not self-stable (a keyword suffix removal can
expose an interior occurrence the `elif` skipped), see the counterexample —
so the claim survives only for the mascot policy. -/
theorem C6_mascot_normalize_idempotent_amended (x : Str) :
    NFLGameMatcher.normalize_team_name (NFLGameMatcher.normalize_team_name x)
      = NFLGameMatcher.normalize_team_name x := by
  by_cases hx : x = []
  · subst hx
    rfl
  · rw [nfl_normalize_expand x, if_neg hx]
    rcases nflCollapse_cases (pyStrip x) with hcol | hmem
    · rw [hcol]
      exact nfl_normalize_fix_noncollapse (pyStrip x) (pyStrip_pyStrip x) hcol
    · exact nfl_normalize_fix_token _ (splitWs_no_ws (pyStrip x) _ hmem)

/-- Counterexample to C6 as stated: the institutional normalizer is not
idempotent.  On `"A Davis B Davis"` the keyword pass removes the suffix
`" Davis"` (the `elif` then skips the interior occurrence), giving
`"A Davis B"`; a second application removes the now-interior `" Davis "`,
giving `"A B"`. -/
theorem C6_counterexample :
    GameMatcher.normalize_team_name
        (GameMatcher.normalize_team_name "A Davis B Davis".data)
      ≠ GameMatcher.normalize_team_name "A Davis B Davis".data := by
  decide
